import Mathlib

/-!
Verification of the data-cleaning and statistical-analytics pipeline of the
Google Play Store Analytics Dashboard (dataProcessor.js, statisticalAnalysis.js,
analytics.js, constants.js).

JavaScript numbers are modelled as exact rationals (`ℚ`); the special values
`null`, `NaN` and `±Infinity` are modelled explicitly by the `JSVal` type where
they can arise.  Irrational results (square roots) are modelled over `ℝ`.
Strings are Lean `String`s; the fragments of `parseFloat` / `parseInt` /
`toLowerCase` / `trim` / `includes` semantics exercised by the pipeline are
modelled over the character lists.
-/

set_option allowUnsafeReducibility true

attribute [local semireducible] Rat.mul Rat.add Rat.sub Rat.neg Rat.div Rat.inv Rat.ofScientific

/-- Model of a JavaScript number-or-null value over exact rationals:
`null`, `NaN`, `Infinity`, `-Infinity`, or a finite number. -/
inductive JSVal where
  | null : JSVal
  | nan : JSVal
  | inf : JSVal
  | ninf : JSVal
  | num : ℚ → JSVal
deriving DecidableEq, Repr

/-- IEEE-style division producing `NaN` on `0/0` and signed infinities on
`x/0` for `x ≠ 0`, as JavaScript `/` does on finite operands. -/
def jsDiv (a b : ℚ) : JSVal :=
  if b = 0 then (if a = 0 then .nan else if 0 < a then .inf else .ninf)
  else .num (a / b)

/-- JavaScript `(a / b) * 100` for two (natural-number) counts, as used for
every percentage in analytics.js: `NaN` when both counts are `0`. -/
def jsPercentN (a b : ℕ) : JSVal :=
  match jsDiv (a : ℚ) (b : ℚ) with
  | .num q => .num (q * 100)
  | v => v

/-- ASCII lower-casing of one character (the fragment of JavaScript
`toLowerCase` relevant to the size/installs/price strings). -/
def jsLowerChar (c : Char) : Char :=
  if 'A' ≤ c ∧ c ≤ 'Z' then Char.ofNat (c.toNat + 32) else c

/-- JavaScript `String.prototype.toLowerCase` on ASCII data. -/
def jsToLower (s : String) : String :=
  String.mk (s.data.map jsLowerChar)

/-- JavaScript `s.includes(c)` for a single-character needle. -/
def jsIncludesChar (s : String) (c : Char) : Bool :=
  s.data.contains c

/-- The whitespace characters skipped by `parseFloat`/`parseInt`/`trim`
(the common ASCII subset). -/
def isWS (c : Char) : Bool :=
  c == ' ' || c == '\t' || c == '\n' || c == '\r'

/-- JavaScript `String.prototype.trim` (ASCII whitespace). -/
def jsTrimList (l : List Char) : List Char :=
  ((l.dropWhile isWS).reverse.dropWhile isWS).reverse

/-- Value of a list of decimal digits. -/
def digitsVal (ds : List Char) : ℕ :=
  ds.foldl (fun a c => 10 * a + (c.toNat - 48)) 0

/-- Signed exponent part after the `e`/`E` of a float literal; an `e` not
followed by digits contributes exponent `0` (`parseFloat` stops there). -/
def expVal (r : List Char) : ℤ :=
  let sgn : ℤ := if r.head? = some '-' then -1 else 1
  let ds := (if r.head? = some '-' ∨ r.head? = some '+' then r.tail else r).takeWhile
    Char.isDigit
  if ds.isEmpty then 0 else sgn * digitsVal ds

/-- JavaScript `parseFloat` on a character list: skip leading whitespace,
optional sign, longest decimal-literal prefix (integer part, optional
fraction, optional exponent); `none` models `NaN` (no digits at all).
The `Infinity` literal, which never occurs in this dataset, is not modelled. -/
def jsParseFloatList (l0 : List Char) : Option ℚ :=
  let l := l0.dropWhile isWS
  let sgn : ℚ := if l.head? = some '-' then -1 else 1
  let l1 : List Char := if l.head? = some '-' ∨ l.head? = some '+' then l.tail else l
  let ip := l1.takeWhile Char.isDigit
  let r1 := l1.dropWhile Char.isDigit
  let fp : List Char :=
    if r1.head? = some '.' then r1.tail.takeWhile Char.isDigit else []
  let r2 : List Char :=
    if r1.head? = some '.' then r1.tail.dropWhile Char.isDigit else r1
  if ip.isEmpty && fp.isEmpty then none
  else
    let base : ℚ := sgn * ((digitsVal ip : ℚ) + (digitsVal fp : ℚ) / (10 : ℚ) ^ fp.length)
    let e : ℤ := if r2.head? = some 'e' ∨ r2.head? = some 'E' then expVal r2.tail else 0
    some (base * (10 : ℚ) ^ e)

/-- JavaScript `parseFloat` on a string. -/
def jsParseFloat (s : String) : Option ℚ :=
  jsParseFloatList s.data

/-- Value of one hexadecimal digit, if any. -/
def hexDigitVal (c : Char) : Option ℕ :=
  if '0' ≤ c ∧ c ≤ '9' then some (c.toNat - 48)
  else if 'a' ≤ c ∧ c ≤ 'f' then some (c.toNat - 87)
  else if 'A' ≤ c ∧ c ≤ 'F' then some (c.toNat - 55)
  else none

/-- Value of a list of hexadecimal digits. -/
def hexVal (ds : List Char) : ℕ :=
  ds.foldl (fun a c => 16 * a + (hexDigitVal c).getD 0) 0

/-- JavaScript `parseInt` (radix argument omitted) on a character list: skip
leading whitespace, optional sign, `0x`/`0X` hexadecimal prefix or the longest
decimal-digit prefix; `none` models `NaN`. -/
def jsParseIntList (l0 : List Char) : Option ℤ :=
  let l := l0.dropWhile isWS
  let sgn : ℤ := if l.head? = some '-' then -1 else 1
  let l1 : List Char := if l.head? = some '-' ∨ l.head? = some '+' then l.tail else l
  if l1.head? = some '0' ∧ (l1.tail.head? = some 'x' ∨ l1.tail.head? = some 'X') then
    let ds := l1.tail.tail.takeWhile (fun c => (hexDigitVal c).isSome)
    if ds.isEmpty then none else some (sgn * (hexVal ds : ℤ))
  else
    let ds := l1.takeWhile Char.isDigit
    if ds.isEmpty then none else some (sgn * (digitsVal ds : ℤ))

/-- JavaScript `parseInt` on a string. -/
def jsParseInt (s : String) : Option ℤ :=
  jsParseIntList s.data

/-! ## dataProcessor.js -/

/-- `convertSizeToBytes` (dataProcessor.js).  Falsy or `"Varies with device"`
input returns `null`; otherwise the lower-cased string is `parseFloat`-ed and
multiplied by 1024 / 1024² / 1024³ when it contains `k` / `m` / `g` (checked
in that order); an unparseable string yields `NaN` (`NaN * x = NaN`). -/
def convertSizeToBytes (s : String) : JSVal :=
  if s = "" ∨ s = "Varies with device" then .null
  else
    let t := jsToLower s
    let mult : ℚ :=
      if jsIncludesChar t 'k' then 1024
      else if jsIncludesChar t 'm' then 1024 * 1024
      else if jsIncludesChar t 'g' then 1024 * 1024 * 1024
      else 1
    match jsParseFloat t with
    | none => .nan
    | some q => .num (q * mult)

/-- `convertSizeToBytes` applied to a possibly-`undefined` field. -/
def convertSizeToBytesOpt : Option String → JSVal
  | none => .null
  | some s => convertSizeToBytes s

/-- `convertInstallsToNumber` (dataProcessor.js): falsy input gives `0`;
otherwise every `,` and `+` is removed, the result trimmed and `parseInt`-ed,
with `|| 0` turning `NaN` into `0`. -/
def convertInstallsToNumber (s : String) : ℤ :=
  if s = "" then 0
  else
    (jsParseIntList (jsTrimList (s.data.filter (fun c => c ≠ ',' ∧ c ≠ '+')))).getD 0

/-- `convertInstallsToNumber` applied to a possibly-`undefined` field
(`parseInt(undefined)` is `NaN`, so `|| 0` gives `0`). -/
def convertInstallsToNumberOpt : Option String → ℤ
  | none => 0
  | some s => convertInstallsToNumber s

/-- Replace the first occurrence of `pat` in `l` by nothing (the executable
reading of the corrupted source line, see `convertPriceToNumber`). -/
def removeFirstSeq (pat : List Char) : List Char → List Char
  | [] => []
  | c :: r => if pat.isPrefixOf (c :: r) then (c :: r).drop pat.length
              else c :: removeFirstSeq pat r

/-- `convertPriceToNumber` (dataProcessor.js) as written.  Falsy, `"Free"` or
`"0"` input gives `0`.  The next source line, `String(priceString).replace(', '')`,
is an unterminated string literal — a JavaScript syntax error (evidently a slip
for `.replace('$', '')`, cf. the doc comment of the function and the spec).
The nearest executable reading, `.replace(', ', '')`, removes a first `", "`
and in particular leaves a leading `$` in place, so `parseFloat` yields `NaN`
and `|| 0` makes the result `0` for prices such as `"$4.99"`. -/
def convertPriceToNumber (s : String) : ℚ :=
  if s = "" ∨ s = "Free" ∨ s = "0" then 0
  else (jsParseFloatList (removeFirstSeq [',', ' '] s.data)).getD 0

/-- `convertPriceToNumber` applied to a possibly-`undefined` field. -/
def convertPriceToNumberOpt : Option String → ℚ
  | none => 0
  | some s => convertPriceToNumber s

/-- Modelled from the spec: the intended `priceToNumber` — "returns 0 for
Free/0/empty; otherwise strips a leading currency symbol and parses to float,
defaulting to 0 on failure".  (The source's strip is unrecoverable from the
code itself because line 53 of dataProcessor.js is a syntax error.) -/
def convertPriceToNumberSpec (s : String) : ℚ :=
  if s = "" ∨ s = "Free" ∨ s = "0" then 0
  else
    let stripped : List Char := match s.data with
      | '$' :: r => r
      | l => l
    (jsParseFloatList stripped).getD 0

/-- One entry of the `INSTALL_RANGES` table (constants.js); `max = none`
models `Infinity`. -/
structure InstallRange where
  label : String
  lo : ℤ
  hi : Option ℤ
deriving DecidableEq, Repr

/-- The fixed `INSTALL_RANGES` table of constants.js. -/
def INSTALL_RANGES : List InstallRange :=
  [⟨"0-1K", 0, some 1000⟩,
   ⟨"1K-10K", 1000, some 10000⟩,
   ⟨"10K-100K", 10000, some 100000⟩,
   ⟨"100K-1M", 100000, some 1000000⟩,
   ⟨"1M-10M", 1000000, some 10000000⟩,
   ⟨"10M-100M", 10000000, some 100000000⟩,
   ⟨"100M+", 100000000, none⟩]

/-- The predicate `installs >= range.min && installs < range.max` used by
`categorizeInstalls` (`x < Infinity` is true for every finite `x`). -/
def inRange (n : ℤ) (r : InstallRange) : Bool :=
  decide (r.lo ≤ n) && (match r.hi with
    | none => true
    | some m => decide (n < m))

/-- `categorizeInstalls` (dataProcessor.js): label of the first matching
range, or the `'Unknown'` fallback. -/
def categorizeInstalls (n : ℤ) : String :=
  match INSTALL_RANGES.find? (inRange n) with
  | some r => r.label
  | none => "Unknown"

/-- A raw CSV app row: the string-keyed columns used by `processAppsData`,
each possibly `undefined`.  `TypeCol` stands for the `Type` column (the word
`Type` is reserved in Lean); `ContentRating` for `Content Rating`,
`LastUpdated` for `Last Updated`, `CurrentVer` / `AndroidVer` likewise. -/
structure RawAppRow where
  App : Option String
  Category : Option String
  Rating : Option String
  Reviews : Option String
  Size : Option String
  Installs : Option String
  TypeCol : Option String
  Price : Option String
  ContentRating : Option String
  Genres : Option String
  LastUpdated : Option String
  CurrentVer : Option String
  AndroidVer : Option String
deriving DecidableEq, Repr

/-- A processed app record, as built by the `.map` of `processAppsData`.
`rating` is `parseFloat(Rating) || null` (so never `0` and never `NaN`);
`hasRating` is the truthiness of `parseFloat(Rating) && parseFloat(Rating) > 0`. -/
structure App where
  app : String
  category : String
  rating : Option ℚ
  reviews : ℤ
  size : Option String
  sizeBytes : JSVal
  installs : Option String
  installsNumber : ℤ
  installsCategory : String
  type : Option String
  price : Option String
  priceNumber : ℚ
  contentRating : Option String
  genres : Option String
  lastUpdated : Option String
  currentVersion : Option String
  androidVersion : Option String
  isPaid : Bool
  hasRating : Bool
  isPopular : Bool
deriving DecidableEq, Repr

/-- JavaScript truthiness of a possibly-`undefined` string. -/
def truthyStr : Option String → Bool
  | none => false
  | some s => s ≠ ""

/-- `x?.trim()` on a possibly-`undefined` string field. -/
def trimOpt : Option String → Option String
  | none => none
  | some s => some (String.mk (jsTrimList s.data))

/-- `parseFloat` of a possibly-`undefined` field (`parseFloat(undefined)`
is `NaN`). -/
def jsParseFloatOpt : Option String → Option ℚ
  | none => none
  | some s => jsParseFloat s

/-- `parseInt(x) || 0` of a possibly-`undefined` field. -/
def jsParseIntOr0 : Option String → ℤ
  | none => 0
  | some s => (jsParseInt s).getD 0

/-- The row constructor inside `processAppsData`'s `.map` (dataProcessor.js
lines 81–103), applied to a row that survived the critical-data filter. -/
def buildApp (r : RawAppRow) : App :=
  let pf := jsParseFloatOpt r.Rating
  let installsN := convertInstallsToNumberOpt r.Installs
  { app := (trimOpt r.App).getD ""
    category := (trimOpt r.Category).getD ""
    rating := match pf with
      | none => none
      | some q => if q = 0 then none else some q
    reviews := jsParseIntOr0 r.Reviews
    size := trimOpt r.Size
    sizeBytes := convertSizeToBytesOpt r.Size
    installs := trimOpt r.Installs
    installsNumber := installsN
    installsCategory := categorizeInstalls installsN
    type := trimOpt r.TypeCol
    price := r.Price
    priceNumber := convertPriceToNumberOpt r.Price
    contentRating := trimOpt r.ContentRating
    genres := trimOpt r.Genres
    lastUpdated := trimOpt r.LastUpdated
    currentVersion := trimOpt r.CurrentVer
    androidVersion := trimOpt r.AndroidVer
    isPaid := decide (0 < convertPriceToNumberOpt r.Price)
    hasRating := match pf with
      | none => false
      | some q => decide (0 < q)
    isPopular := decide (1000000 ≤ installsN) }

/-- JavaScript `Array.prototype.filter` where evaluating the callback may
throw: the first thrown error aborts the whole call. -/
def jsFilterE (p : α → Except String Bool) : List α → Except String (List α)
  | [] => .ok []
  | x :: xs =>
      match p x with
      | .error e => .error e
      | .ok b =>
          match jsFilterE p xs with
          | .error e => .error e
          | .ok rest => .ok (if b then x :: rest else rest)

/-- JavaScript `Array.prototype.map` where the callback may throw. -/
def jsMapE (f : α → Except String β) : List α → Except String (List β)
  | [] => .ok []
  | x :: xs =>
      match f x with
      | .error e => .error e
      | .ok y =>
          match jsMapE f xs with
          | .error e => .error e
          | .ok rest => .ok (y :: rest)

/-- The critical-data predicate `app => app.App && app.Category` of
`processAppsData`.  Reading `.App` of a `null`/`undefined` array element
throws a `TypeError`. -/
def appRowKeep : Option RawAppRow → Except String Bool
  | none => .error "TypeError"
  | some r => .ok (truthyStr r.App && truthyStr r.Category)

/-- The `.map` step of `processAppsData` on a possibly-`null` element
(unreachable for `null` after the filter, which throws first). -/
def appRowBuild : Option RawAppRow → Except String App
  | none => .error "TypeError"
  | some r => .ok (buildApp r)

/-- `processAppsData` (dataProcessor.js).  The argument `none` models a
non-array input; a list element `none` models a `null`/`undefined` row. -/
def processAppsData : Option (List (Option RawAppRow)) → Except String (List App)
  | none => .error "Invalid data format: expected array"
  | some rows =>
      match jsFilterE appRowKeep rows with
      | .error e => .error e
      | .ok kept =>
          match jsMapE appRowBuild kept with
          | .error e => .error e
          | .ok mapped => .ok (mapped.filter (fun a => a.app ≠ "" && a.category ≠ ""))

/-- A raw CSV review row (columns of `processReviewsData`). -/
structure RawReviewRow where
  App : Option String
  Translated_Review : Option String
  Sentiment : Option String
  Sentiment_Polarity : Option String
  Sentiment_Subjectivity : Option String
deriving DecidableEq, Repr

/-- A processed review record, as built by `processReviewsData`. -/
structure Review where
  app : String
  translatedReview : Option String
  sentiment : Option String
  sentimentPolarity : ℚ
  sentimentSubjectivity : ℚ
  isPositive : Bool
  isNegative : Bool
  isNeutral : Bool
deriving DecidableEq, Repr

/-- The filter `review.App && review.Sentiment && review.Sentiment !== 'nan'`
of `processReviewsData`. -/
def reviewRowKeep : Option RawReviewRow → Except String Bool
  | none => .error "TypeError"
  | some r => .ok (truthyStr r.App && truthyStr r.Sentiment &&

      decide (r.Sentiment ≠ some "nan"))

/-- `review.Sentiment?.toLowerCase() === label`. -/
def sentimentIs (r : RawReviewRow) (label : String) : Bool :=
  match r.Sentiment with
  | none => false
  | some s => jsToLower s == label

/-- The row constructor inside `processReviewsData`'s `.map`. -/
def buildReview (r : RawReviewRow) : Review :=
  { app := (trimOpt r.App).getD ""
    translatedReview := trimOpt r.Translated_Review
    sentiment := trimOpt r.Sentiment
    sentimentPolarity := (jsParseFloatOpt r.Sentiment_Polarity).getD 0
    sentimentSubjectivity := (jsParseFloatOpt r.Sentiment_Subjectivity).getD 0
    isPositive := sentimentIs r "positive"
    isNegative := sentimentIs r "negative"
    isNeutral := sentimentIs r "neutral" }

/-- The `.map` step of `processReviewsData` on a possibly-`null` element. -/
def reviewRowBuild : Option RawReviewRow → Except String Review
  | none => .error "TypeError"
  | some r => .ok (buildReview r)

/-- `processReviewsData` (dataProcessor.js). -/
def processReviewsData : Option (List (Option RawReviewRow)) → Except String (List Review)
  | none => .error "Invalid data format: expected array"
  | some rows =>
      match jsFilterE reviewRowKeep rows with
      | .error e => .error e
      | .ok kept => jsMapE reviewRowBuild kept

/-- `xs.foldl` step of lodash `_.maxBy(group, 'reviews')`: the running best is
replaced only when the next value is strictly greater, so the first of several
records with the maximal `reviews` is kept. -/
def maxByReviewsFold (x : App) (xs : List App) : App :=
  xs.foldl (fun best a => if best.reviews < a.reviews then a else best) x

/-- lodash `_.maxBy(group, 'reviews')` (`none` on an empty group). -/
def maxByReviews : List App → Option App
  | [] => none
  | x :: xs => some (maxByReviewsFold x xs)

/-- First-occurrence list of keys, modelling the key set of
`_.groupBy(apps, 'app')` in insertion order.  (JavaScript additionally moves
integer-like keys to the front of `Object.values`; that permutation of the
groups does not affect any per-name property proved below.) -/
def uniqueKeys : List String → List String
  | [] => []
  | k :: ks => k :: (uniqueKeys ks).filter (fun x => x ≠ k)

/-- `removeDuplicateApps` (dataProcessor.js): group by `app`, then keep the
single record per group that `_.maxBy` selects (a singleton group is returned
as is, which coincides with `_.maxBy` on it). -/
def removeDuplicateApps (apps : List App) : List App :=
  (uniqueKeys (apps.map (fun a => a.app))).filterMap
    (fun nm => maxByReviews (apps.filter (fun a => a.app == nm)))

/-- The filter configuration of `filterApps`; a `none` key is absent, and a
present key with a falsy value (`""`, `0`) is skipped by the source's
truthiness guards exactly like an absent one. -/
structure Filters where
  category : Option String
  minRating : Option ℚ
  type : Option String
  contentRating : Option String
  isPaid : Option Bool
deriving DecidableEq, Repr

/-- JavaScript `app.rating >= m` where `rating` may be `null`
(`null` coerces to `0`). -/
def jsGeOpt (r : Option ℚ) (m : ℚ) : Bool :=
  match r with
  | none => decide (0 ≥ m)
  | some q => decide (q ≥ m)

/-- `filterApps` (dataProcessor.js): the five truthiness-guarded `.filter`
passes, in source order. -/
def filterApps (apps : List App) (f : Filters) : List App :=
  let l1 := match f.category with
    | some c => if c ≠ "" then apps.filter (fun a => a.category == c) else apps
    | none => apps
  let l2 := match f.minRating with
    | some m => if m ≠ 0 then l1.filter (fun a => jsGeOpt a.rating m) else l1
    | none => l1
  let l3 := match f.type with
    | some t => if t ≠ "" then l2.filter (fun a => a.type == some t) else l2
    | none => l2
  let l4 := match f.contentRating with
    | some cr => if cr ≠ "" then l3.filter (fun a => a.contentRating == some cr) else l3
    | none => l3
  match f.isPaid with
  | some b => l4.filter (fun a => a.isPaid == b)
  | none => l4

/-! ## statisticalAnalysis.js -/

/-- The cleaning filter `v !== null && v !== undefined && !isNaN(v)` of
`calculateBasicStats` (and the equivalent one of `identifyOutliers`):
`none` models `null`/`undefined`/`NaN`. -/
def cleanOf (values : List (Option ℚ)) : List ℚ :=
  values.reduceOption

/-- Stable insertion of one element into an ascending list. -/
def insertAsc (a : ℚ) : List ℚ → List ℚ
  | [] => [a]
  | b :: l => if a ≤ b then a :: b :: l else b :: insertAsc a l

/-- Stable ascending sort, modelling `[...]sort((a, b) => a - b)` and the
internal sorting of mathjs `median`. -/
def sortAsc (l : List ℚ) : List ℚ :=
  l.foldr insertAsc []

/-- Minimum of a list (`Math.min(...)`); only applied to non-empty lists. -/
def listMin : List ℚ → ℚ
  | [] => 0
  | x :: xs => xs.foldl min x

/-- Maximum of a list (`Math.max(...)`); only applied to non-empty lists. -/
def listMax : List ℚ → ℚ
  | [] => 0
  | x :: xs => xs.foldl max x

/-- mathjs `median`: middle element of the ascending sort for odd length,
mean of the two middle elements for even length (only applied to non-empty
lists here). -/
def medianQ (l : List ℚ) : ℚ :=
  let s := sortAsc l
  let n := s.length
  if n % 2 = 1 then s.getD (n / 2) 0
  else (s.getD (n / 2 - 1) 0 + s.getD (n / 2) 0) / 2

/-- mathjs `quantileSeq` on an ascending list with linear interpolation:
index `p * (n - 1)`, interpolating between the neighbouring entries. -/
def quantileInterp (s : List ℚ) (p : ℚ) : ℚ :=
  let idx : ℚ := p * ((s.length : ℚ) - 1)
  let lo : ℕ := Int.toNat ⌊idx⌋
  let frac : ℚ := idx - (⌊idx⌋ : ℚ)
  if frac = 0 then s.getD lo 0
  else s.getD lo 0 + frac * (s.getD (lo + 1) 0 - s.getD lo 0)

/-- The loop of mathjs `mode`: `pre` is the already-processed prefix (whose
per-value counts model the `count` object), `mx` the running maximal count and
`mode` the running result list; a value whose incremented count equals `mx` is
appended, one that exceeds `mx` resets the list. -/
def modeAux : List ℚ → List ℚ → ℕ → List ℚ → List ℚ
  | [], _, _, mode => mode
  | v :: rest, pre, mx, mode =>
      let c := pre.count v + 1
      if c = mx then modeAux rest (pre ++ [v]) mx (mode ++ [v])
      else if mx < c then modeAux rest (pre ++ [v]) c [v]
      else modeAux rest (pre ++ [v]) mx mode

/-- mathjs `mode`: the array of all values attaining the maximal frequency
(in the order in which their counts first reach it). -/
def mathjsMode (l : List ℚ) : List ℚ :=
  modeAux l [] 0 []

/-- mathjs `var` with its default `'unbiased'` normalization: the sum of
squared deviations from the mean divided by `n - 1`, except that the
`num === 1` guard in the `'unbiased'` branch returns the literal zero for a
single value.  (mathjs throws on an empty array, but `calculateBasicStats`
never reaches this call with one; the `.nan` returned for `n = 0` is dead.) -/
def mathjsVariance (l : List ℚ) : JSVal :=
  let m : ℚ := l.sum / l.length
  let s : ℚ := (l.map (fun x => (x - m) ^ 2)).sum
  if l.length = 0 then .nan
  else if l.length = 1 then .num 0
  else .num (s / ((l.length : ℚ) - 1))

/-- mathjs `std`: square root of `mathjsVariance` (so `0` for a single
value); `none` models `NaN`. -/
noncomputable def mathjsStd (l : List ℚ) : Option ℝ :=
  match mathjsVariance l with
  | .num q => some (Real.sqrt (q : ℝ))
  | _ => none

/-- The record returned by `calculateBasicStats`.  `mode = none` models the
JavaScript `null` of the empty branch; `std = none` and `variance = .nan`
model `NaN`. -/
structure BasicStats where
  count : ℕ
  mean : ℚ
  median : ℚ
  mode : Option (List ℚ)
  min : ℚ
  max : ℚ
  std : Option ℝ
  variance : JSVal
  q1 : ℚ
  q3 : ℚ
  iqr : ℚ

/-- `calculateBasicStats` (statisticalAnalysis.js): filter out
null/undefined/NaN; on an empty remainder return the fixed zero record;
otherwise compute the mathjs statistics (note that `median`, `mode`, `std`
and `var` receive the unsorted clean array, and `quantileSeq` the sorted
copy, exactly as in the source). -/
noncomputable def calculateBasicStats (values : List (Option ℚ)) : BasicStats :=
  let clean := cleanOf values
  if clean = [] then
    { count := 0, mean := 0, median := 0, mode := none, min := 0, max := 0,
      std := some 0, variance := .num 0, q1 := 0, q3 := 0, iqr := 0 }
  else
    let sorted := sortAsc clean
    { count := clean.length
      mean := clean.sum / clean.length
      median := medianQ clean
      mode := some (mathjsMode clean)
      min := listMin clean
      max := listMax clean
      std := mathjsStd clean
      variance := mathjsVariance clean
      q1 := quantileInterp sorted (1 / 4)
      q3 := quantileInterp sorted (3 / 4)
      iqr := quantileInterp sorted (3 / 4) - quantileInterp sorted (1 / 4) }

/-- A JavaScript number over `ℝ` (for the square-root-valued correlation). -/
inductive JSRVal where
  | num : ℝ → JSRVal
  | nan : JSRVal
  | inf : JSRVal
  | ninf : JSRVal

/-- The pair filter of `calculateCorrelation`: zip the two arrays and keep
the pairs in which both components are valid numbers. -/
def validPairs (x y : List (Option ℚ)) : List (ℚ × ℚ) :=
  (x.zip y).filterMap (fun p => match p with
    | (some a, some b) => some (a, b)
    | _ => none)

/-- Numerator `n * Σxy - Σx * Σy` of the mathjs `corr` formula. -/
def corrNum (xc yc : List ℚ) : ℚ :=
  (xc.length : ℚ) * ((xc.zip yc).map (fun p => p.1 * p.2)).sum - xc.sum * yc.sum

/-- Radicand `(n * Σx² - (Σx)²) * (n * Σy² - (Σy)²)` of the mathjs `corr`
denominator. -/
def corrDen2 (xc yc : List ℚ) : ℚ :=
  ((xc.length : ℚ) * (xc.map (fun a => a ^ 2)).sum - xc.sum ^ 2) *
    ((yc.length : ℚ) * (yc.map (fun a => a ^ 2)).sum - yc.sum ^ 2)

/-- mathjs `corr` on two equal-length numeric arrays, with IEEE semantics of
the final division: `0/0 = NaN`, `x/0 = ±Infinity`. -/
noncomputable def mathjsCorr (xc yc : List ℚ) : JSRVal :=
  let num := corrNum xc yc
  let den : ℝ := Real.sqrt ((corrDen2 xc yc : ℚ) : ℝ)
  if den = 0 then (if num = 0 then .nan else if 0 < num then .inf else .ninf)
  else .num ((num : ℝ) / den)

/-- `calculateCorrelation` (statisticalAnalysis.js): `0` on length mismatch
or empty input, `0` when fewer than 2 valid pairs remain, and otherwise the
mathjs `corr` value with `isNaN(correlation) ? 0 : correlation`. -/
noncomputable def calculateCorrelation (x y : List (Option ℚ)) : JSRVal :=
  if x.length ≠ y.length ∨ x.length = 0 then .num 0
  else
    let pairs := validPairs x y
    if pairs.length < 2 then .num 0
    else
      match mathjsCorr (pairs.map Prod.fst) (pairs.map Prod.snd) with
      | .nan => .num 0
      | v => v

/-- The record returned by `identifyOutliers`; `outlierPercentage = none`
models the field being absent from the early-return object. -/
structure OutlierResult where
  outliers : List ℚ
  lowerBound : ℚ
  upperBound : ℚ
  outlierCount : ℕ
  outlierPercentage : Option ℚ

/-- `identifyOutliers` (statisticalAnalysis.js): IQR fencing with factor 1.5;
fewer than 4 clean values give the empty result with zero bounds. -/
noncomputable def identifyOutliers (values : List (Option ℚ)) : OutlierResult :=
  let clean := cleanOf values
  if clean.length < 4 then
    { outliers := [], lowerBound := 0, upperBound := 0, outlierCount := 0,
      outlierPercentage := none }
  else
    let stats := calculateBasicStats (clean.map some)
    let lb := stats.q1 - 3 / 2 * stats.iqr
    let ub := stats.q3 + 3 / 2 * stats.iqr
    let outs := clean.filter (fun v => decide (v < lb) || decide (ub < v))
    { outliers := outs, lowerBound := lb, upperBound := ub,
      outlierCount := outs.length,
      outlierPercentage := some ((outs.length : ℚ) / (clean.length : ℚ) * 100) }

/-- The five fixed rating buckets of `analyzeRatingDistribution`. -/
structure RatingBuckets where
  b10_19 : ℕ
  b20_29 : ℕ
  b30_39 : ℕ
  b40_44 : ℕ
  b45_50 : ℕ
deriving DecidableEq, Repr

/-- The record returned by `analyzeRatingDistribution`; `distribution = none`
models the empty object `{}` of the empty branch. -/
structure RatingDistribution where
  total : ℕ
  distribution : Option RatingBuckets
  stats : BasicStats

/-- `analyzeRatingDistribution` (statisticalAnalysis.js): keep valid positive
ratings and count them into the five fixed buckets. -/
noncomputable def analyzeRatingDistribution (ratings : List (Option ℚ)) : RatingDistribution :=
  let clean := (cleanOf ratings).filter (fun r => decide (0 < r))
  if clean = [] then
    { total := 0, distribution := none, stats := calculateBasicStats [] }
  else
    { total := clean.length
      distribution := some
        { b10_19 := clean.countP (fun r => decide (1 ≤ r) && decide (r < 2))
          b20_29 := clean.countP (fun r => decide (2 ≤ r) && decide (r < 3))
          b30_39 := clean.countP (fun r => decide (3 ≤ r) && decide (r < 4))
          b40_44 := clean.countP (fun r => decide (4 ≤ r) && decide (r < 9 / 2))
          b45_50 := clean.countP (fun r => decide (9 / 2 ≤ r) && decide (r ≤ 5)) }
      stats := calculateBasicStats (clean.map some) }

/-! ## analytics.js -/

/-- JavaScript truthiness of the `rating` field (`null` and `0` are falsy;
processed records never carry `NaN` here, cf. `buildApp`). -/
def ratingTruthy : Option ℚ → Bool
  | none => false
  | some q => q ≠ 0

/-- JavaScript `app.rating > m` with `null` coercing to `0`. -/
def jsGtOpt (r : Option ℚ) (m : ℚ) : Bool :=
  match r with
  | none => decide (0 > m)
  | some q => decide (q > m)

/-- JavaScript `app.rating < m` with `null` coercing to `0`. -/
def jsLtOpt (r : Option ℚ) (m : ℚ) : Bool :=
  match r with
  | none => decide (0 < m)
  | some q => decide (q < m)

/-- The sort key of `(a, b) => b.rating - a.rating` (every sorted element has
a number rating after the preceding filters). -/
def ratingKey (a : App) : ℚ :=
  a.rating.getD 0

/-- Stable insertion for the descending rating sort. -/
def insertRatingDesc (a : App) : List App → List App
  | [] => [a]
  | b :: l => if ratingKey b ≤ ratingKey a then a :: b :: l else b :: insertRatingDesc a l

/-- `sort((a, b) => b.rating - a.rating)`: stable descending sort by rating. -/
def sortRatingDesc (l : List App) : List App :=
  l.foldr insertRatingDesc []

/-- Stable insertion for the ascending rating sort. -/
def insertRatingAsc (a : App) : List App → List App
  | [] => [a]
  | b :: l => if ratingKey a ≤ ratingKey b then a :: b :: l else b :: insertRatingAsc a l

/-- `sort((a, b) => a.rating - b.rating)`: stable ascending sort by rating. -/
def sortRatingAsc (l : List App) : List App :=
  l.foldr insertRatingAsc []

/-- The record returned by `generateOverviewAnalytics`. -/
structure OverviewAnalytics where
  totalApps : ℕ
  appsWithRatings : ℕ
  paidApps : ℕ
  freeApps : ℤ
  popularApps : ℕ
  totalInstalls : ℤ
  totalReviews : ℤ
  avgRating : ℚ
  ratingsPercentage : JSVal
  paidAppsPercentage : JSVal
  popularAppsPercentage : JSVal
deriving DecidableEq, Repr

/-- `generateOverviewAnalytics` (analytics.js).  `avgRating` is
`_.mean(ratings) || 0`, which maps the `NaN` mean of an empty list to `0`;
the three percentage fields are unguarded `(count / totalApps) * 100`. -/
def generateOverviewAnalytics (apps : List App) : OverviewAnalytics :=
  let totalApps := apps.length
  let withR := apps.countP (fun a => a.hasRating)
  let paid := apps.countP (fun a => a.isPaid)
  let popular := apps.countP (fun a => a.isPopular)
  let rated := (apps.filter (fun a => ratingTruthy a.rating)).map (fun a => a.rating.getD 0)
  { totalApps := totalApps
    appsWithRatings := withR
    paidApps := paid
    freeApps := (totalApps : ℤ) - (paid : ℤ)
    popularApps := popular
    totalInstalls := (apps.map (fun a => a.installsNumber)).sum
    totalReviews := (apps.map (fun a => a.reviews)).sum
    avgRating := if rated = [] then 0 else rated.sum / rated.length
    ratingsPercentage := jsPercentN withR totalApps
    paidAppsPercentage := jsPercentN paid totalApps
    popularAppsPercentage := jsPercentN popular totalApps }

/-- The `sentimentCounts` sub-record of `generateSentimentAnalytics`. -/
structure SentimentCounts where
  positive : ℕ
  negative : ℕ
  neutral : ℕ
deriving DecidableEq, Repr

/-- The `sentimentPercentages` sub-record of `generateSentimentAnalytics`. -/
structure SentimentPercentages where
  positive : JSVal
  negative : JSVal
  neutral : JSVal
deriving DecidableEq, Repr

/-- The record returned by `generateSentimentAnalytics`. -/
structure SentimentAnalytics where
  totalReviews : ℕ
  sentimentCounts : SentimentCounts
  sentimentPercentages : SentimentPercentages
  polarityStats : BasicStats
  subjectivityStats : BasicStats

/-- `generateSentimentAnalytics` (analytics.js): label counts, unguarded
`(count / total) * 100` percentages, and basic stats over polarity and
subjectivity (whose `.filter(p => !isNaN(p))` drops nothing, processed
reviews carrying finite numbers there). -/
noncomputable def generateSentimentAnalytics (reviews : List Review) : SentimentAnalytics :=
  let pos := reviews.countP (fun r => r.isPositive)
  let neg := reviews.countP (fun r => r.isNegative)
  let neu := reviews.countP (fun r => r.isNeutral)
  let total := reviews.length
  { totalReviews := total
    sentimentCounts := ⟨pos, neg, neu⟩
    sentimentPercentages :=
      ⟨jsPercentN pos total, jsPercentN neg total, jsPercentN neu total⟩
    polarityStats :=
      calculateBasicStats ((reviews.map (fun r => r.sentimentPolarity)).map some)
    subjectivityStats :=
      calculateBasicStats ((reviews.map (fun r => r.sentimentSubjectivity)).map some) }

/-- The record returned by `generateRatingAnalytics`. -/
structure RatingAnalytics where
  ratingDistribution : RatingDistribution
  ratingStats : BasicStats
  ratingOutliers : OutlierResult
  topRatedApps : List App
  poorlyRatedApps : List App
  highRatedPercentage : JSVal

/-- `generateRatingAnalytics` (analytics.js).  `highRatedPercentage` is the
unguarded `(count rating >= 4.0) / (count rating truthy) * 100`. -/
noncomputable def generateRatingAnalytics (apps : List App) : RatingAnalytics :=
  let ratings := (apps.filter (fun a => ratingTruthy a.rating)).map (fun a => a.rating.getD 0)
  { ratingDistribution := analyzeRatingDistribution (ratings.map some)
    ratingStats := calculateBasicStats (ratings.map some)
    ratingOutliers := identifyOutliers (ratings.map some)
    topRatedApps := (sortRatingDesc (apps.filter (fun a => jsGeOpt a.rating (9 / 2)))).take 10
    poorlyRatedApps :=
      (sortRatingAsc (apps.filter (fun a => jsLtOpt a.rating 3 && jsGtOpt a.rating 0))).take 10
    highRatedPercentage :=
      jsPercentN (apps.countP (fun a => jsGeOpt a.rating 4))
        (apps.countP (fun a => ratingTruthy a.rating)) }

/-! ## Specification-side definitions -/

/-- Arithmetic mean. -/
def meanQ (l : List ℚ) : ℚ :=
  l.sum / l.length

/-- Population variance (divisor `n`), as the spec's ("population variance")
reading of the `variance` field demands. -/
def popVariance (l : List ℚ) : ℚ :=
  (l.map (fun x => (x - meanQ l) ^ 2)).sum / l.length

/-- Sum of squares. -/
def sumSq (l : List ℚ) : ℚ :=
  (l.map (fun x => x ^ 2)).sum

/-- Centered sum of squares `Σ (x - mean)²`. -/
def centeredSS (l : List ℚ) : ℚ :=
  (l.map (fun x => (x - meanQ l) ^ 2)).sum

/-- Centered sum of products `Σ (x - mean x)(y - mean y)` over a pair list. -/
def centeredSP (p : List (ℚ × ℚ)) : ℚ :=
  let mx := meanQ (p.map Prod.fst)
  let my := meanQ (p.map Prod.snd)
  (p.map (fun q => (q.1 - mx) * (q.2 - my))).sum

/-- The textbook Pearson correlation coefficient of a list of pairs. -/
noncomputable def pearson (p : List (ℚ × ℚ)) : ℝ :=
  (centeredSP p : ℝ) /
    (Real.sqrt ((centeredSS (p.map Prod.fst) : ℚ) : ℝ) *
      Real.sqrt ((centeredSS (p.map Prod.snd) : ℚ) : ℝ))

/-- A constant series (zero variance). -/
def allEqual (l : List ℚ) : Prop :=
  ∀ a ∈ l, ∀ b ∈ l, a = b

/-- Maximum of the `reviews` fields of a list of records. -/
def maxRevs : List App → Option ℤ
  | [] => none
  | a :: l =>
      match maxRevs l with
      | none => some a.reviews
      | some m => some (max a.reviews m)

/-- The record a deduplication group must keep according to the spec: the
first record (in input order) whose `reviews` attains the maximum of the
group, as a length-at-most-one list. -/
def firstMaxSpec (l : List App) : List App :=
  match maxRevs l with
  | none => []
  | some m => (l.find? (fun a => a.reviews == m)).toList

/-- The conjunction of the five per-key predicates of `filterApps` (an
absent key — and a present falsy one, which the source's truthiness guards
skip identically — constrains nothing). -/
def passesAll (f : Filters) (a : App) : Bool :=
  (match f.category with
    | some c => if c ≠ "" then a.category == c else true
    | none => true) &&
  (match f.minRating with
    | some m => if m ≠ 0 then jsGeOpt a.rating m else true
    | none => true) &&
  (match f.type with
    | some t => if t ≠ "" then a.type == some t else true
    | none => true) &&
  (match f.contentRating with
    | some cr => if cr ≠ "" then a.contentRating == some cr else true
    | none => true) &&
  (match f.isPaid with
    | some b => a.isPaid == b
    | none => true)

/-- The zero-valued record of `calculateBasicStats`' empty branch. -/
noncomputable def zeroBasicStats : BasicStats :=
  { count := 0, mean := 0, median := 0, mode := none, min := 0, max := 0,
    std := some 0, variance := .num 0, q1 := 0, q3 := 0, iqr := 0 }

/-- The exact decimal value of an integer part and a fraction part. -/
def decimalVal (ip fp : List Char) : ℚ :=
  (digitsVal ip : ℚ) + (digitsVal fp : ℚ) / (10 : ℚ) ^ fp.length

/-- The byte multiplier the spec assigns to a size suffix. -/
def sizeMult (c : Char) : ℚ :=
  if c = 'k' ∨ c = 'K' then 1024
  else if c = 'm' ∨ c = 'M' then 1024 * 1024
  else 1024 * 1024 * 1024

/-- The ten decimal digit characters (the alphabet of a plain numeric
string). -/
def digitChars : List Char :=
  ['0', '1', '2', '3', '4', '5', '6', '7', '8', '9']

/-- A demo record for concrete witnesses: only `app` and `reviews` vary. -/
def mkApp (nm : String) (rev : ℤ) : App :=
  { app := nm, category := "GAME", rating := none, reviews := rev, size := none,
    sizeBytes := .null, installs := none, installsNumber := 0,
    installsCategory := "0-1K", type := none, price := none, priceNumber := 0,
    contentRating := none, genres := none, lastUpdated := none,
    currentVersion := none, androidVersion := none,
    isPaid := false, hasRating := false, isPopular := false }

/-! ## Helper lemmas -/

/-- Cleaning a list of only invalid entries leaves nothing. -/
theorem cleanOf_eq_nil_of_all_none (values : List (Option ℚ)) (h : ∀ v ∈ values, v = none) :
    cleanOf values = [] := by
  induction values with
  | nil => rfl
  | cons v vs ih =>
      have hv : v = none := h v (by simp)
      subst hv
      simpa [cleanOf] using ih (fun w hw => h w (by simp [hw]))

/-- A filter whose callback never throws returns normally, with a sublist. -/
theorem jsFilterE_ok {α : Type} (p : α → Except String Bool) (l : List α)
    (h : ∀ x ∈ l, ∃ b, p x = .ok b) :
    ∃ l', jsFilterE p l = .ok l' ∧ ∀ x ∈ l', x ∈ l := by
  induction l with
  | nil => exact ⟨[], rfl, by simp⟩
  | cons x xs ih =>
      obtain ⟨b, hb⟩ := h x (by simp)
      obtain ⟨l', hl', hsub⟩ := ih (fun y hy => h y (by simp [hy]))
      refine ⟨if b then x :: l' else l', ?_, ?_⟩
      · simp [jsFilterE, hb, hl']
      · intro y hy
        cases b with
        | false =>
            simp at hy
            exact List.mem_cons_of_mem x (hsub y hy)
        | true =>
            simp at hy
            rcases hy with hy | hy
            · simp [hy]
            · exact List.mem_cons_of_mem x (hsub y hy)

/-- A map whose callback never throws returns normally. -/
theorem jsMapE_ok {α β : Type} (f : α → Except String β) (l : List α)
    (h : ∀ x ∈ l, ∃ y, f x = .ok y) :
    ∃ l', jsMapE f l = .ok l' := by
  induction l with
  | nil => exact ⟨[], rfl⟩
  | cons x xs ih =>
      obtain ⟨y, hy⟩ := h x (by simp)
      obtain ⟨l', hl'⟩ := ih (fun z hz => h z (by simp [hz]))
      exact ⟨y :: l', by simp [jsMapE, hy, hl']⟩

/-! ## Claims -/

/-- Claim C5 (code bug): evaluating `convertPriceToNumber` as written.  The
falsy/Free/0 cases do return 0, but on the failing input `"$4.99"` the
function returns `0`, not `4.99`: the intended `.replace('$', '')` was
corrupted into the syntax error `.replace(', '')`, so the leading `$` is
never stripped and `parseFloat` yields `NaN`.  The spec-modelled intended
function does return `4.99`. -/
theorem C5_price_code_eval :
    convertPriceToNumber "Free" = 0 ∧ convertPriceToNumber "0" = 0 ∧
      convertPriceToNumber "" = 0 ∧ convertPriceToNumber "$4.99" = 0 ∧
      convertPriceToNumberSpec "$4.99" = 499 / 100 := by
  refine ⟨by decide, by decide, by decide, by decide, by decide⟩

/-- Claim C9: `calculateBasicStats` on an input whose entries are all
null/undefined/NaN returns exactly the fixed zero-valued record (with
`mode = null`), with no `NaN` in any field. -/
theorem C9_basicStats_zero (values : List (Option ℚ)) (h : ∀ v ∈ values, v = none) :
    calculateBasicStats values = zeroBasicStats := by
  have hc := cleanOf_eq_nil_of_all_none values h
  simp [calculateBasicStats, hc, zeroBasicStats]

/-- Witness for C9 at the concrete all-invalid input `[none, none]`. -/
theorem C9_basicStats_zero_witness :
    (∀ v ∈ ([none, none] : List (Option ℚ)), v = none) ∧
      calculateBasicStats [none, none] = zeroBasicStats :=
  ⟨by simp, C9_basicStats_zero [none, none] (by simp)⟩

/-- Claim C1 (counterexample): on an empty app list,
`generateOverviewAnalytics` yields `ratingsPercentage = NaN` (JavaScript
`(0 / 0) * 100`), not `0` as the claim states. -/
theorem C1_counterexample :
    (generateOverviewAnalytics []).ratingsPercentage = JSVal.nan ∧
      JSVal.nan ≠ JSVal.num 0 := by
  exact ⟨by decide, by decide⟩

/-- Claim C1 (amended): on inputs that are empty after cleaning, the
percentage fields of the three analytics functions are all `NaN` (the `0/0`
of the unguarded divisions), never `0` and never `Infinity`. -/
theorem C1_empty_percentages_nan :
    ((generateOverviewAnalytics []).ratingsPercentage = JSVal.nan ∧
      (generateOverviewAnalytics []).paidAppsPercentage = JSVal.nan ∧
      (generateOverviewAnalytics []).popularAppsPercentage = JSVal.nan) ∧
    ((generateSentimentAnalytics []).sentimentPercentages.positive = JSVal.nan ∧
      (generateSentimentAnalytics []).sentimentPercentages.negative = JSVal.nan ∧
      (generateSentimentAnalytics []).sentimentPercentages.neutral = JSVal.nan) ∧
    (∀ apps : List App, (∀ a ∈ apps, ratingTruthy a.rating = false) →
      (generateRatingAnalytics apps).highRatedPercentage = JSVal.nan) := by
  refine ⟨⟨by decide, by decide, by decide⟩, ⟨?_, ?_, ?_⟩, ?_⟩
  · simp [generateSentimentAnalytics, jsPercentN, jsDiv]
  · simp [generateSentimentAnalytics, jsPercentN, jsDiv]
  · simp [generateSentimentAnalytics, jsPercentN, jsDiv]
  · intro apps h
    have h2 : apps.countP (fun a => ratingTruthy a.rating) = 0 :=
      List.countP_eq_zero.mpr (by intro a ha; simp [h a ha])
    have h1 : apps.countP (fun a => jsGeOpt a.rating 4) = 0 := by
      refine List.countP_eq_zero.mpr ?_
      intro a ha
      have := h a ha
      cases hr : a.rating with
      | none => simp [jsGeOpt, hr]
      | some q =>
          have hq : q = 0 := by simpa [ratingTruthy, hr] using this
          simp [jsGeOpt, hr, hq]
    simp [generateRatingAnalytics, h1, h2, jsPercentN, jsDiv]

/-- Witness for the quantified part of the C1 amendment, at the empty list. -/
theorem C1_empty_percentages_nan_witness :
    (∀ a ∈ ([] : List App), ratingTruthy a.rating = false) ∧
      (generateRatingAnalytics []).highRatedPercentage = JSVal.nan :=
  ⟨by simp, C1_empty_percentages_nan.2.2 [] (by simp)⟩

/-- Claim C10 (counterexample): an array input containing a `null` row makes
`processAppsData` throw a `TypeError` (reading `.App` of `null` in the
critical-data filter) instead of returning normally. -/
theorem C10_counterexample :
    processAppsData (some [none]) = .error "TypeError" := by
  rfl

/-- Claim C10 (amended): both processors throw
`'Invalid data format: expected array'` exactly on non-array input, and
return normally on every array of (non-null) object rows; an array
containing a `null`/`undefined` element instead raises a `TypeError`. -/
theorem C10_array_contract :
    processAppsData none = .error "Invalid data format: expected array" ∧
    processReviewsData none = .error "Invalid data format: expected array" ∧
    (∀ rows : List RawAppRow, ∃ l, processAppsData (some (rows.map some)) = .ok l) ∧
    (∀ rows : List RawReviewRow, ∃ l, processReviewsData (some (rows.map some)) = .ok l) := by
  refine ⟨rfl, rfl, ?_, ?_⟩
  · intro rows
    obtain ⟨kept, hkept, hsub⟩ := jsFilterE_ok appRowKeep (rows.map some)
      (by intro x hx
          obtain ⟨r, _, rfl⟩ := List.mem_map.mp hx
          exact ⟨_, rfl⟩)
    obtain ⟨mapped, hmapped⟩ := jsMapE_ok appRowBuild kept
      (by intro x hx
          obtain ⟨r, _, rfl⟩ := List.mem_map.mp (hsub x hx)
          exact ⟨_, rfl⟩)
    exact ⟨mapped.filter (fun a => a.app ≠ "" && a.category ≠ ""),
      by simp [processAppsData, hkept, hmapped]⟩
  · intro rows
    obtain ⟨kept, hkept, hsub⟩ := jsFilterE_ok reviewRowKeep (rows.map some)
      (by intro x hx
          obtain ⟨r, _, rfl⟩ := List.mem_map.mp hx
          exact ⟨_, rfl⟩)
    obtain ⟨mapped, hmapped⟩ := jsMapE_ok reviewRowBuild kept
      (by intro x hx
          obtain ⟨r, _, rfl⟩ := List.mem_map.mp (hsub x hx)
          exact ⟨_, rfl⟩)
    exact ⟨mapped, by simp [processReviewsData, hkept, hmapped]⟩

/-- `filterApps` is a single `List.filter` by the conjunction of its per-key
predicates. -/
theorem filterApps_eq_filter (apps : List App) (f : Filters) :
    filterApps apps f = apps.filter (passesAll f) := by
  obtain ⟨c, m, t, cr, p⟩ := f
  unfold filterApps passesAll
  cases c <;> cases m <;> cases t <;> cases cr <;> cases p <;>
    simp only [] <;> (try split_ifs) <;>
    simp [List.filter_filter, Bool.and_comm, Bool.and_left_comm, Bool.and_assoc]

/-- Claim C7: `filterApps` is idempotent — filtering twice with the same
configuration changes nothing further — and equals one pass of the
conjunction of the per-key predicates, where absent (or falsy) keys
constrain nothing; as a pure function of its input list it mutates
nothing. -/
theorem C7_filterApps_idempotent (apps : List App) (f : Filters) :
    filterApps (filterApps apps f) f = filterApps apps f ∧
      filterApps apps f = apps.filter (passesAll f) := by
  refine ⟨?_, filterApps_eq_filter apps f⟩
  rw [filterApps_eq_filter, filterApps_eq_filter, List.filter_filter]
  exact List.filter_congr (fun a _ => by cases passesAll f a <;> simp)

/-- Every nonnegative install count lies in exactly one `INSTALL_RANGES`
bucket, and `categorizeInstalls` returns that bucket's label. -/
theorem bucket_of_nonneg (n : ℤ) (hn : 0 ≤ n) :
    INSTALL_RANGES.countP (inRange n) = 1 ∧
      ∃ r ∈ INSTALL_RANGES, inRange n r = true ∧
        categorizeInstalls n = r.label ∧ r.label ≠ "Unknown" := by
  constructor
  · simp only [INSTALL_RANGES, List.countP_cons, List.countP_nil, inRange,
      Bool.and_eq_true, Bool.and_true, decide_eq_true_eq]
    split_ifs <;> omega
  · have h7 : n < 1000 ∨ (1000 ≤ n ∧ n < 10000) ∨ (10000 ≤ n ∧ n < 100000) ∨
        (100000 ≤ n ∧ n < 1000000) ∨ (1000000 ≤ n ∧ n < 10000000) ∨
        (10000000 ≤ n ∧ n < 100000000) ∨ 100000000 ≤ n := by omega
    rcases h7 with h | h | h | h | h | h | h
    · refine ⟨⟨"0-1K", 0, some 1000⟩, by simp [INSTALL_RANGES], ?_, ?_, by decide⟩
      · simp [inRange]; omega
      · simp [categorizeInstalls, INSTALL_RANGES, List.find?, inRange, hn, h]
    · refine ⟨⟨"1K-10K", 1000, some 10000⟩, by simp [INSTALL_RANGES], ?_, ?_, by decide⟩
      · simp [inRange]; omega
      · simp [categorizeInstalls, INSTALL_RANGES, List.find?, inRange, hn, h.1, h.2,
          show ¬n < 1000 by omega]
    · refine ⟨⟨"10K-100K", 10000, some 100000⟩, by simp [INSTALL_RANGES], ?_, ?_, by decide⟩
      · simp [inRange]; omega
      · simp [categorizeInstalls, INSTALL_RANGES, List.find?, inRange, hn, h.1, h.2,
          show ¬n < 1000 by omega, show ¬n < 10000 by omega]
    · refine ⟨⟨"100K-1M", 100000, some 1000000⟩, by simp [INSTALL_RANGES], ?_, ?_, by decide⟩
      · simp [inRange]; omega
      · simp [categorizeInstalls, INSTALL_RANGES, List.find?, inRange, hn, h.1, h.2,
          show ¬n < 1000 by omega, show ¬n < 10000 by omega, show ¬n < 100000 by omega]
    · refine ⟨⟨"1M-10M", 1000000, some 10000000⟩, by simp [INSTALL_RANGES], ?_, ?_, by decide⟩
      · simp [inRange]; omega
      · simp [categorizeInstalls, INSTALL_RANGES, List.find?, inRange, hn, h.1, h.2,
          show ¬n < 1000 by omega, show ¬n < 10000 by omega, show ¬n < 100000 by omega,
          show ¬n < 1000000 by omega]
    · refine ⟨⟨"10M-100M", 10000000, some 100000000⟩, by simp [INSTALL_RANGES], ?_, ?_,
        by decide⟩
      · simp [inRange]; omega
      · simp [categorizeInstalls, INSTALL_RANGES, List.find?, inRange, hn, h.1, h.2,
          show ¬n < 1000 by omega, show ¬n < 10000 by omega, show ¬n < 100000 by omega,
          show ¬n < 1000000 by omega, show ¬n < 10000000 by omega]
    · refine ⟨⟨"100M+", 100000000, none⟩, by simp [INSTALL_RANGES], ?_, ?_, by decide⟩
      · simp [inRange]; omega
      · simp [categorizeInstalls, INSTALL_RANGES, List.find?, inRange, hn, h,
          show ¬n < 1000 by omega, show ¬n < 10000 by omega, show ¬n < 100000 by omega,
          show ¬n < 1000000 by omega, show ¬n < 10000000 by omega,
          show ¬n < 100000000 by omega]

/-- Claim C6 (counterexample): `convertInstallsToNumber "-5"` produces `-5`,
which lies in no `INSTALL_RANGES` bucket, so `categorizeInstalls` returns
the `'Unknown'` fallback — the claimed round trip fails. -/
theorem C6_counterexample :
    convertInstallsToNumber "-5" = -5 ∧
      categorizeInstalls (convertInstallsToNumber "-5") = "Unknown" ∧
      INSTALL_RANGES.countP (inRange (convertInstallsToNumber "-5")) = 0 := by
  exact ⟨by decide, by decide, by decide⟩

/-- Claim C6 (amended): for every input string whose parsed install count is
nonnegative — every count `convertInstallsToNumber` produces except for
strings parsing to a negative number — the count satisfies the bounds of
exactly one bucket of `INSTALL_RANGES` and `categorizeInstalls` returns that
bucket's label, never the `'Unknown'` fallback. -/
theorem C6_installs_bucket (s : String) (h : 0 ≤ convertInstallsToNumber s) :
    INSTALL_RANGES.countP (inRange (convertInstallsToNumber s)) = 1 ∧
      ∃ r ∈ INSTALL_RANGES, inRange (convertInstallsToNumber s) r = true ∧
        categorizeInstalls (convertInstallsToNumber s) = r.label ∧ r.label ≠ "Unknown" :=
  bucket_of_nonneg _ h

/-- Witness for C6 at the concrete installs string `"10,000+"`. -/
theorem C6_installs_bucket_witness :
    0 ≤ convertInstallsToNumber "10,000+" ∧
      INSTALL_RANGES.countP (inRange (convertInstallsToNumber "10,000+")) = 1 :=
  ⟨by decide, (C6_installs_bucket "10,000+" (by decide)).1⟩

/-- One step of the `_.maxBy` fold. -/
theorem maxByReviewsFold_cons (x b : App) (bs : List App) :
    maxByReviewsFold x (b :: bs) =
      maxByReviewsFold (if x.reviews < b.reviews then b else x) bs := rfl

/-- The `_.maxBy` fold returns a member of the group. -/
theorem maxByReviewsFold_mem (x : App) (xs : List App) :
    maxByReviewsFold x xs ∈ x :: xs := by
  induction xs generalizing x with
  | nil => simp [maxByReviewsFold]
  | cons b bs ih =>
      rw [maxByReviewsFold_cons]
      by_cases h : x.reviews < b.reviews
      · rw [if_pos h]
        rcases List.mem_cons.mp (ih b) with h' | h' <;> simp [h']
      · rw [if_neg h]
        rcases List.mem_cons.mp (ih x) with h' | h' <;> simp [h']

/-- The `_.maxBy` fold result has maximal `reviews` in the group. -/
theorem maxByReviewsFold_ge (x : App) (xs : List App) :
    ∀ a ∈ x :: xs, a.reviews ≤ (maxByReviewsFold x xs).reviews := by
  induction xs generalizing x with
  | nil => simp [maxByReviewsFold]
  | cons b bs ih =>
      intro a ha
      rw [maxByReviewsFold_cons]
      by_cases h : x.reviews < b.reviews
      · rw [if_pos h]
        rcases List.mem_cons.mp ha with h1 | h1
        · rw [h1]
          exact le_trans (le_of_lt h) (ih b b (by simp))
        · exact ih b a h1
      · rw [if_neg h]
        rcases List.mem_cons.mp ha with h1 | h1
        · rw [h1]
          exact ih x x (by simp)
        · rcases List.mem_cons.mp h1 with h2 | h2
          · rw [h2]
            exact le_trans (not_lt.mp h) (ih x x (by simp))
          · exact ih x a (by simp [h2])

/-- The `_.maxBy` fold keeps the first record attaining the maximum: every
record strictly before the result in the group has strictly fewer reviews. -/
theorem maxByReviewsFold_first (x : App) (xs : List App) :
    ∃ p q, x :: xs = p ++ maxByReviewsFold x xs :: q ∧
      ∀ a ∈ p, a.reviews < (maxByReviewsFold x xs).reviews := by
  induction xs generalizing x with
  | nil => exact ⟨[], [], by simp [maxByReviewsFold], by simp⟩
  | cons b bs ih =>
      rw [maxByReviewsFold_cons]
      by_cases h : x.reviews < b.reviews
      · rw [if_pos h]
        obtain ⟨p, q, hpq, hlt⟩ := ih b
        refine ⟨x :: p, q, by simp [hpq], ?_⟩
        intro a ha
        rcases List.mem_cons.mp ha with h1 | h1
        · rw [h1]
          exact lt_of_lt_of_le h (maxByReviewsFold_ge b bs b (by simp))
        · exact hlt a h1
      · rw [if_neg h]
        obtain ⟨p, q, hpq, hlt⟩ := ih x
        cases p with
        | nil =>
            simp only [List.nil_append, List.cons.injEq] at hpq
            exact ⟨[], b :: bs, by rw [List.nil_append, ← hpq.1], by simp⟩
        | cons hd tl =>
            simp only [List.cons_append, List.cons.injEq] at hpq
            obtain ⟨rfl, hbs⟩ := hpq
            refine ⟨x :: b :: tl, q,
              by rw [List.cons_append, List.cons_append, ← hbs], ?_⟩
            intro a ha
            rcases List.mem_cons.mp ha with h1 | h1
            · rw [h1]
              exact hlt x (by simp)
            · rcases List.mem_cons.mp h1 with h2 | h2
              · rw [h2]
                exact lt_of_le_of_lt (not_lt.mp h) (hlt x (by simp))
              · exact hlt a (by simp [h2])

/-- `maxRevs` is `none` exactly on the empty list. -/
theorem maxRevs_eq_none_iff (l : List App) : maxRevs l = none ↔ l = [] := by
  cases l with
  | nil => simp [maxRevs]
  | cons a l =>
      simp only [maxRevs]
      cases maxRevs l <;> simp

/-- `maxRevs` bounds every group member. -/
theorem maxRevs_le (l : List App) (m : ℤ) (h : maxRevs l = some m) :
    ∀ a ∈ l, a.reviews ≤ m := by
  induction l generalizing m with
  | nil => simp
  | cons b bs ih =>
      intro a ha
      rcases hbs : maxRevs bs with _ | m'
      · have hb : bs = [] := (maxRevs_eq_none_iff bs).mp hbs
        subst hb
        simp only [maxRevs, hbs] at h
        simp only [List.mem_singleton] at ha
        simp [ha, ← Option.some_inj.mp h]
      · simp only [maxRevs, hbs] at h
        rcases List.mem_cons.mp ha with h1 | h1
        · rw [h1, ← Option.some_inj.mp h]
          exact le_max_left _ _
        · calc a.reviews ≤ m' := ih m' hbs a h1
            _ ≤ m := by rw [← Option.some_inj.mp h]; exact le_max_right _ _

/-- `maxRevs` is attained by some group member. -/
theorem maxRevs_mem (l : List App) (m : ℤ) (h : maxRevs l = some m) :
    ∃ a ∈ l, a.reviews = m := by
  induction l generalizing m with
  | nil => simp [maxRevs] at h
  | cons b bs ih =>
      rcases hbs : maxRevs bs with _ | m'
      · simp only [maxRevs, hbs] at h
        exact ⟨b, by simp, Option.some_inj.mp h⟩
      · simp only [maxRevs, hbs] at h
        rcases le_or_lt m' b.reviews with h1 | h1
        · refine ⟨b, by simp, ?_⟩
          rw [← Option.some_inj.mp h]
          exact (max_eq_left h1).symm
        · obtain ⟨a, ha, ha'⟩ := ih m' hbs
          refine ⟨a, by simp [ha], ?_⟩
          rw [ha', ← Option.some_inj.mp h]
          exact (max_eq_right (le_of_lt h1)).symm

/-- `find?` splits its list at the first hit: everything before fails the
predicate. -/
theorem find?_first (p : App → Bool) (l : List App) (y : App) (h : l.find? p = some y) :
    ∃ hd tl, l = hd ++ y :: tl ∧ ∀ a ∈ hd, p a = false := by
  induction l with
  | nil => simp at h
  | cons b bs ih =>
      rcases hb : p b with _ | _
      · rw [List.find?_cons_of_neg _ (by simp [hb])] at h
        obtain ⟨hd, tl, hsplit, hfail⟩ := ih h
        refine ⟨b :: hd, tl, by simp [hsplit], ?_⟩
        intro a ha
        rcases List.mem_cons.mp ha with h1 | h1
        · rw [h1]; exact hb
        · exact hfail a h1
      · rw [List.find?_cons_of_pos _ hb] at h
        exact ⟨[], bs, by simp [← Option.some_inj.mp h], by simp⟩

/-- On a non-empty group, the spec-side `firstMaxSpec` is exactly the record
the `_.maxBy` fold selects. -/
theorem firstMaxSpec_eq_fold (x : App) (xs : List App) :
    firstMaxSpec (x :: xs) = [maxByReviewsFold x xs] := by
  rcases hm : maxRevs (x :: xs) with _ | m
  · simp [maxRevs_eq_none_iff] at hm
  · have hle := maxRevs_le (x :: xs) m hm
    obtain ⟨a0, ha0, ha0'⟩ := maxRevs_mem (x :: xs) m hm
    have hfe : m = (maxByReviewsFold x xs).reviews := by
      refine le_antisymm ?_ (hle _ (maxByReviewsFold_mem x xs))
      rw [← ha0']
      exact maxByReviewsFold_ge x xs a0 ha0
    obtain ⟨p, q, hpq, hlt⟩ := maxByReviewsFold_first x xs
    have hfind : (x :: xs).find? (fun a => a.reviews == m) = some (maxByReviewsFold x xs) := by
      rw [hpq]
      have hskip : ∀ a ∈ p, (fun a => a.reviews == m) a = false := by
        intro a ha
        simp only [beq_eq_false_iff_ne, ne_eq]
        intro hc
        exact absurd (hc ▸ hfe ▸ (hlt a ha)) (lt_irrefl _)
      clear hpq hlt hle ha0 ha0'
      induction p with
      | nil =>
          simp only [List.nil_append]
          rw [List.find?_cons_of_pos _ (by simp [hfe])]
      | cons c cs ihp =>
          rw [List.cons_append, List.find?_cons_of_neg _ (by simp [hskip c (by simp)])]
          exact ihp (fun a ha => hskip a (by simp [ha]))
    simp [firstMaxSpec, hm, hfind]

/-- Occurrence count of a key in `uniqueKeys`: one if present, else zero. -/
theorem uniqueKeys_count (l : List String) (k : String) :
    (uniqueKeys l).count k = if k ∈ l then 1 else 0 := by
  induction l with
  | nil => simp [uniqueKeys]
  | cons a l ih =>
      by_cases hk : k = a
      · subst hk
        rw [uniqueKeys, List.count_cons_self, if_pos (by simp)]
        have hz : ((uniqueKeys l).filter (fun x => x ≠ k)).count k = 0 := by
          refine List.count_eq_zero.mpr ?_
          intro hmem
          have := List.of_mem_filter hmem
          simp at this
        omega
      · rw [uniqueKeys, List.count_cons_of_ne hk, List.count_filter (by simp [hk]), ih]
        simp [List.mem_cons, hk]

/-- `uniqueKeys` preserves membership. -/
theorem mem_uniqueKeys (l : List String) (k : String) : k ∈ uniqueKeys l ↔ k ∈ l := by
  rw [← List.count_pos_iff, uniqueKeys_count]
  by_cases hm : k ∈ l <;> simp [hm]

/-- `_.maxBy` selects a member of its group. -/
theorem maxByReviews_mem (l : List App) (y : App) (h : maxByReviews l = some y) : y ∈ l := by
  cases l with
  | nil => simp [maxByReviews] at h
  | cons x xs =>
      rw [maxByReviews] at h
      rw [← Option.some_inj.mp h]
      exact maxByReviewsFold_mem x xs

/-- The record `_.maxBy` selects from the group of `nm` carries the name
`nm`. -/
theorem maxByReviews_app (apps : List App) (nm : String) (y : App)
    (h : maxByReviews (apps.filter (fun a => a.app == nm)) = some y) : y.app = nm := by
  have := List.of_mem_filter (maxByReviews_mem _ y h)
  simpa using this

/-- Restricting the grouped-and-picked list to one name: the single
`_.maxBy` pick of that name's group when the name is a key, nothing
otherwise. -/
theorem dedup_filter_name (apps : List App) (name : String) :
    ∀ keys : List String, keys.count name ≤ 1 →
      ((keys.filterMap (fun nm => maxByReviews (apps.filter (fun a => a.app == nm)))).filter
          (fun a => a.app == name)) =
        if name ∈ keys then (maxByReviews (apps.filter (fun a => a.app == name))).toList
        else [] := by
  intro keys
  induction keys with
  | nil => simp
  | cons k ks ih =>
      intro hcount
      rw [List.filterMap_cons]
      rcases hk : maxByReviews (apps.filter (fun a => a.app == k)) with _ | y
      · by_cases hkn : k = name
        · subst hkn
          have hnotin : k ∉ ks := by
            rw [List.count_cons_self] at hcount
            exact List.count_eq_zero.mp (by omega)
          rw [ih (by simp [List.count_eq_zero.mpr hnotin]), if_neg hnotin,
            if_pos (by simp), hk]
          simp
        · have hne : name ≠ k := fun hc => hkn hc.symm
          rw [List.count_cons_of_ne hne] at hcount
          rw [ih hcount]
          simp [hne]
      · have hyapp : y.app = k := maxByReviews_app apps k y hk
        by_cases hkn : k = name
        · subst hkn
          have hnotin : k ∉ ks := by
            rw [List.count_cons_self] at hcount
            exact List.count_eq_zero.mp (by omega)
          rw [List.filter_cons, if_pos (by simp [hyapp]),
            ih (by simp [List.count_eq_zero.mpr hnotin]), if_neg hnotin,
            if_pos (by simp), hk]
          simp
        · have hne : name ≠ k := fun hc => hkn hc.symm
          rw [List.count_cons_of_ne hne] at hcount
          rw [List.filter_cons, if_neg (by simp [hyapp, hkn]), ih hcount]
          simp [hne]

/-- Claim C2: `removeDuplicateApps` keeps exactly one record per distinct
name — restricted to any name, its output is `firstMaxSpec` of that name's
group: the single record with the maximum `reviews`, the first-encountered
one among ties (conjunct three spells out that reading of `firstMaxSpec`);
every kept record's `reviews` dominates all input records of its name. -/
theorem C2_removeDuplicateApps (apps : List App) (name : String) :
    ((removeDuplicateApps apps).filter (fun a => a.app == name) =
        firstMaxSpec (apps.filter (fun a => a.app == name))) ∧
      (∀ r ∈ removeDuplicateApps apps, ∀ a ∈ apps, a.app = r.app → a.reviews ≤ r.reviews) ∧
      (∀ l : List App, ∀ y ∈ firstMaxSpec l,
        (∀ a ∈ l, a.reviews ≤ y.reviews) ∧
          ∃ p q, l = p ++ y :: q ∧ ∀ a ∈ p, a.reviews < y.reviews) := by
  refine ⟨?_, ?_, ?_⟩
  · rw [removeDuplicateApps,
      dedup_filter_name apps name _ (by rw [uniqueKeys_count]; split_ifs <;> omega)]
    by_cases hmem : name ∈ apps.map (fun a => a.app)
    · rw [if_pos ((mem_uniqueKeys _ _).mpr hmem)]
      obtain ⟨a, ha, ha'⟩ := List.mem_map.mp hmem
      rcases hg : apps.filter (fun a => a.app == name) with _ | ⟨x, xs⟩
      · have hain : a ∈ apps.filter (fun a => a.app == name) :=
          List.mem_filter.mpr ⟨ha, by simp [ha']⟩
        rw [hg] at hain
        simp at hain
      · rw [hg, firstMaxSpec_eq_fold, maxByReviews]
        simp
    · rw [if_neg (fun hc => hmem ((mem_uniqueKeys _ _).mp hc))]
      have hg : apps.filter (fun a => a.app == name) = [] := by
        refine List.filter_eq_nil_iff.mpr ?_
        intro a ha hc
        exact hmem (List.mem_map.mpr ⟨a, ha, by simpa using hc⟩)
      rw [hg]
      rfl
  · intro r hr a ha haeq
    obtain ⟨nm, _, hnm⟩ := List.mem_filterMap.mp hr
    have hrapp : r.app = nm := maxByReviews_app apps nm r hnm
    have hag : a ∈ apps.filter (fun a => a.app == nm) :=
      List.mem_filter.mpr ⟨ha, by simp [haeq, hrapp]⟩
    rcases hg : apps.filter (fun a => a.app == nm) with _ | ⟨x, xs⟩
    · simp [hg] at hag
    · rw [hg, maxByReviews] at hnm
      rw [← Option.some_inj.mp hnm]
      exact maxByReviewsFold_ge x xs a (hg ▸ hag)
  · intro l y hy
    rcases hm : maxRevs l with _ | m
    · simp [firstMaxSpec, hm] at hy
    · simp only [firstMaxSpec, hm] at hy
      rcases hf : l.find? (fun a => a.reviews == m) with _ | y'
      · simp [hf] at hy
      · simp only [hf, Option.toList_some, List.mem_singleton] at hy
        subst hy
        have hym : y.reviews = m := by
          have := List.find?_some hf
          simpa using this
        refine ⟨fun a ha => hym ▸ maxRevs_le l m hm a ha, ?_⟩
        obtain ⟨hd, tl, hsplit, hfail⟩ := find?_first _ l y hf
        refine ⟨hd, tl, hsplit, ?_⟩
        intro a ha
        have hne : a.reviews ≠ m := by simpa using hfail a ha
        have hle : a.reviews ≤ m := maxRevs_le l m hm a (by simp [hsplit, ha])
        rw [hym]
        exact lt_of_le_of_ne hle hne

/-- Witness for C2: three records named `X` (reviews 50, 100, 100) and one
`Y`; the kept `X` record is the first of the two with 100 reviews, and the
max-property holds at the concrete records. -/
theorem C2_removeDuplicateApps_witness :
    ((removeDuplicateApps [mkApp "X" 50, mkApp "X" 100, mkApp "X" 100, mkApp "Y" 10]).filter
        (fun a => a.app == "X") = [mkApp "X" 100]) ∧
      (mkApp "X" 50).reviews ≤ (mkApp "X" 100).reviews := by
  constructor
  · rw [(C2_removeDuplicateApps [mkApp "X" 50, mkApp "X" 100, mkApp "X" 100, mkApp "Y" 10]
      "X").1]
    decide
  · exact (C2_removeDuplicateApps [mkApp "X" 50, mkApp "X" 100, mkApp "X" 100, mkApp "Y" 10]
      "X").2.1 (mkApp "X" 100) (by decide) (mkApp "X" 50) (by decide) (by decide)

/-- `takeWhile`/`dropWhile` split an all-true block from a failing head. -/
theorem span_append (p : Char → Bool) (ds rest : List Char)
    (hds : ∀ c ∈ ds, p c = true) (hrest : ∀ c, rest.head? = some c → p c = false) :
    (ds ++ rest).takeWhile p = ds ∧ (ds ++ rest).dropWhile p = rest := by
  induction ds with
  | nil =>
      simp only [List.nil_append]
      cases rest with
      | nil => simp
      | cons c r =>
          have hc := hrest c rfl
          simp [List.takeWhile_cons, List.dropWhile_cons, hc]
  | cons d ds ih =>
      have hd : p d = true := hds d (by simp)
      obtain ⟨h1, h2⟩ := ih (fun c hc => hds c (by simp [hc]))
      simp [List.takeWhile_cons, List.dropWhile_cons, hd, h1, h2]

/-- `parseFloat` on digits, a dot, digits and one trailing non-numeric
letter: the exact decimal value. -/
theorem jsParseFloatList_dot (ip fp : List Char) (lc : Char)
    (hip : ∀ x ∈ ip, x ∈ digitChars) (hfp : ∀ x ∈ fp, x ∈ digitChars)
    (hne : ip ≠ []) (h1 : lc.isDigit = false) (h2 : lc ≠ 'e') (h3 : lc ≠ 'E') :
    jsParseFloatList (ip ++ '.' :: fp ++ [lc]) = some (decimalVal ip fp) := by
  obtain ⟨d, ip', rfl⟩ : ∃ d ip', ip = d :: ip' := by
    cases ip with
    | nil => exact absurd rfl hne
    | cons d ip' => exact ⟨d, ip', rfl⟩
  have hdd : d ∈ digitChars := hip d (by simp)
  have hws : isWS d = false :=
    (by decide : ∀ x ∈ digitChars, isWS x = false) d hdd
  have hdig : d.isDigit = true :=
    (by decide : ∀ x ∈ digitChars, Char.isDigit x = true) d hdd
  have hdm : d ≠ '-' := fun hcon => by subst hcon; revert hdd; decide
  have hdp : d ≠ '+' := fun hcon => by subst hcon; revert hdd; decide
  have hspanA := span_append Char.isDigit ip' ('.' :: (fp ++ [lc]))
    (fun x hx => (by decide : ∀ x ∈ digitChars, Char.isDigit x = true) x (hip x (by simp [hx])))
    (by intro x hx
        rw [List.head?_cons, Option.some_inj] at hx
        subst hx
        decide)
  have hspan2 := span_append Char.isDigit fp [lc]
    (fun x hx => (by decide : ∀ x ∈ digitChars, Char.isDigit x = true) x (hfp x hx))
    (by intro x hx
        rw [List.head?_cons, Option.some_inj] at hx
        subst hx
        exact h1)
  simp only [jsParseFloatList, List.append_assoc, List.cons_append, List.dropWhile_cons,
    List.takeWhile_cons, hws, hdig, hdm, hdp, Bool.false_eq_true, if_false, if_true, or_self,
    List.head?_cons, Option.some.injEq, hspanA.1, hspanA.2, List.tail_cons,
    hspan2.1, hspan2.2, h2, h3, List.isEmpty_cons, Bool.false_and]
  simp [decimalVal]

/-- `parseFloat` on digits and one trailing non-numeric letter: the digit
value. -/
theorem jsParseFloatList_nodot (ip : List Char) (lc : Char)
    (hip : ∀ x ∈ ip, x ∈ digitChars) (hne : ip ≠ [])
    (h0 : lc ≠ '.') (h1 : lc.isDigit = false) (h2 : lc ≠ 'e') (h3 : lc ≠ 'E') :
    jsParseFloatList (ip ++ [lc]) = some ((digitsVal ip : ℚ)) := by
  obtain ⟨d, ip', rfl⟩ : ∃ d ip', ip = d :: ip' := by
    cases ip with
    | nil => exact absurd rfl hne
    | cons d ip' => exact ⟨d, ip', rfl⟩
  have hdd : d ∈ digitChars := hip d (by simp)
  have hws : isWS d = false :=
    (by decide : ∀ x ∈ digitChars, isWS x = false) d hdd
  have hdig : d.isDigit = true :=
    (by decide : ∀ x ∈ digitChars, Char.isDigit x = true) d hdd
  have hdm : d ≠ '-' := fun hcon => by subst hcon; revert hdd; decide
  have hdp : d ≠ '+' := fun hcon => by subst hcon; revert hdd; decide
  have hspanA := span_append Char.isDigit ip' [lc]
    (fun x hx => (by decide : ∀ x ∈ digitChars, Char.isDigit x = true) x (hip x (by simp [hx])))
    (by intro x hx
        rw [List.head?_cons, Option.some_inj] at hx
        subst hx
        exact h1)
  simp only [jsParseFloatList, List.append_assoc, List.cons_append, List.dropWhile_cons,
    List.takeWhile_cons, hws, hdig, hdm, hdp, Bool.false_eq_true, if_false, if_true, or_self,
    List.head?_cons, Option.some.injEq, hspanA.1, hspanA.2, List.tail_cons,
    h0, h1, h2, h3, List.isEmpty_cons, Bool.false_and]
  simp [show digitsVal ([] : List Char) = 0 from rfl]

/-- A string starting with a digit is neither empty nor the
`"Varies with device"` sentinel. -/
theorem guard_digits_head (d : Char) (rest : List Char) (hd : d ∈ digitChars) :
    ¬(String.mk (d :: rest) = "" ∨ String.mk (d :: rest) = "Varies with device") := by
  intro h
  rcases h with h | h
  · have hdata := String.ext_iff.mp h
    rw [show ("" : String).data = [] from rfl] at hdata
    simp at hdata
  · have hdata := String.ext_iff.mp h
    have hh := congrArg List.head? hdata
    rw [show ("Varies with device" : String).data.head? = some 'V' from rfl] at hh
    rw [show (String.mk (d :: rest)).data = d :: rest from rfl] at hh
    have hdv : d = 'V' := by simpa using hh
    subst hdv
    revert hd
    decide

/-- Lower-casing fixes a digit string. -/
theorem map_lower_digits (l : List Char) (h : ∀ x ∈ l, x ∈ digitChars) :
    l.map jsLowerChar = l := by
  induction l with
  | nil => rfl
  | cons a l ih =>
      have ha : jsLowerChar a = a :=
        (by decide : ∀ x ∈ digitChars, jsLowerChar x = x) a (h a (by simp))
      simp [ha, ih (fun x hx => h x (by simp [hx]))]

/-- A needle that is neither a digit nor a dot occurs in a numeric body with
one suffix character exactly when it is that suffix. -/
theorem contains_digits_suffix (x : Char) (body : List Char) (lc : Char)
    (hbody : ∀ a ∈ body, a ∈ digitChars ∨ a = '.')
    (hx1 : x ∈ digitChars → False) (hx2 : x ≠ '.') :
    (body ++ [lc]).contains x = (x == lc) := by
  have h1 : x ∉ body := by
    intro hmem
    rcases hbody x hmem with h' | h'
    · exact hx1 h'
    · exact hx2 h'
  by_cases hxl : x = lc <;>
    simp [List.contains, List.elem_eq_mem, List.mem_append, h1, hxl]

/-- Evaluation of `convertSizeToBytes` on a numeric body followed by one
size-suffix character: the parsed value times the suffix multiplier. -/
theorem convertSizeToBytes_eval (body : List Char) (c lc : Char) (v : ℚ)
    (hbody : ∀ a ∈ body, a ∈ digitChars ∨ a = '.')
    (hhead : ∃ d rest, body = d :: rest ∧ d ∈ digitChars)
    (hlower : body.map jsLowerChar = body)
    (hlc : jsLowerChar c = lc)
    (hlck : lc = 'k' ∨ lc = 'm' ∨ lc = 'g')
    (hparse : jsParseFloatList (body ++ [lc]) = some v) :
    convertSizeToBytes (String.mk (body ++ [c])) =
      .num (v * (if lc = 'k' then 1024 else if lc = 'm' then 1024 * 1024
        else 1024 * 1024 * 1024)) := by
  obtain ⟨d, rest, hb, hd⟩ := hhead
  have hguard := guard_digits_head d (rest ++ [c]) hd
  have hbc : body ++ [c] = d :: (rest ++ [c]) := by rw [hb]; rfl
  have ht : jsToLower (String.mk (body ++ [c])) = String.mk (body ++ [lc]) := by
    rw [jsToLower]
    congr 1
    rw [show (String.mk (body ++ [c])).data = body ++ [c] from rfl, List.map_append, hlower]
    simp [hlc]
  have hk := contains_digits_suffix 'k' body lc hbody (by decide) (by decide)
  have hm := contains_digits_suffix 'm' body lc hbody (by decide) (by decide)
  have hg := contains_digits_suffix 'g' body lc hbody (by decide) (by decide)
  simp only [convertSizeToBytes]
  rw [if_neg (by rw [hbc]; exact hguard), ht]
  simp only [jsIncludesChar, jsParseFloat,
    show (String.mk (body ++ [lc])).data = body ++ [lc] from rfl, hk, hm, hg, hparse]
  rcases hlck with rfl | rfl | rfl <;> simp

/-- Claim C8: for every numeric string (digits, optionally a dot and more
digits) with suffix `k`/`m`/`g` in either case, `convertSizeToBytes` returns
the parsed decimal value times 1024 / 1024² / 1024³ respectively; the
`"Varies with device"` sentinel and the empty string give `null`. -/
theorem C8_convertSizeToBytes (ip fp : List Char) (c : Char)
    (hip : ∀ x ∈ ip, x ∈ digitChars) (hfp : ∀ x ∈ fp, x ∈ digitChars)
    (hne : ip ≠ []) (hc : c ∈ (['k', 'K', 'm', 'M', 'g', 'G'] : List Char)) :
    (convertSizeToBytes (String.mk (ip ++ '.' :: fp ++ [c])) =
        .num (decimalVal ip fp * sizeMult c)) ∧
      (convertSizeToBytes (String.mk (ip ++ [c])) =
        .num ((digitsVal ip : ℚ) * sizeMult c)) ∧
      convertSizeToBytes "Varies with device" = JSVal.null ∧
      convertSizeToBytes "" = JSVal.null := by
  obtain ⟨d, ip', hipeq⟩ : ∃ d ip', ip = d :: ip' := by
    cases ip with
    | nil => exact absurd rfl hne
    | cons d ip' => exact ⟨d, ip', rfl⟩
  have hbody1 : ∀ a ∈ ip ++ '.' :: fp, a ∈ digitChars ∨ a = '.' := by
    intro a ha
    rcases List.mem_append.mp ha with h | h
    · exact Or.inl (hip a h)
    · rcases List.mem_cons.mp h with h | h
      · exact Or.inr h
      · exact Or.inl (hfp a h)
  have hbody2 : ∀ a ∈ ip, a ∈ digitChars ∨ a = '.' := fun a ha => Or.inl (hip a ha)
  have hhead1 : ∃ d0 rest, ip ++ '.' :: fp = d0 :: rest ∧ d0 ∈ digitChars :=
    ⟨d, ip' ++ '.' :: fp, by rw [hipeq]; rfl, hip d (by rw [hipeq]; simp)⟩
  have hhead2 : ∃ d0 rest, ip = d0 :: rest ∧ d0 ∈ digitChars :=
    ⟨d, ip', hipeq, hip d (by rw [hipeq]; simp)⟩
  have hlower1 : (ip ++ '.' :: fp).map jsLowerChar = ip ++ '.' :: fp := by
    rw [List.map_append, map_lower_digits ip hip]
    simp [map_lower_digits fp hfp, show jsLowerChar '.' = '.' from rfl]
  have hlower2 := map_lower_digits ip hip
  have hc6 : c = 'k' ∨ c = 'K' ∨ c = 'm' ∨ c = 'M' ∨ c = 'g' ∨ c = 'G' := by
    simpa using hc
  refine ⟨?_, ?_, by decide, by decide⟩
  · rcases hc6 with rfl | rfl | rfl | rfl | rfl | rfl
    · rw [convertSizeToBytes_eval (ip ++ '.' :: fp) 'k' 'k' (decimalVal ip fp) hbody1 hhead1
        hlower1 (by decide) (by decide)
        (jsParseFloatList_dot ip fp 'k' hip hfp hne (by decide) (by decide) (by decide))]
      simp [sizeMult]
    · rw [convertSizeToBytes_eval (ip ++ '.' :: fp) 'K' 'k' (decimalVal ip fp) hbody1 hhead1
        hlower1 (by decide) (by decide)
        (jsParseFloatList_dot ip fp 'k' hip hfp hne (by decide) (by decide) (by decide))]
      simp [sizeMult]
    · rw [convertSizeToBytes_eval (ip ++ '.' :: fp) 'm' 'm' (decimalVal ip fp) hbody1 hhead1
        hlower1 (by decide) (by decide)
        (jsParseFloatList_dot ip fp 'm' hip hfp hne (by decide) (by decide) (by decide))]
      simp [sizeMult]
    · rw [convertSizeToBytes_eval (ip ++ '.' :: fp) 'M' 'm' (decimalVal ip fp) hbody1 hhead1
        hlower1 (by decide) (by decide)
        (jsParseFloatList_dot ip fp 'm' hip hfp hne (by decide) (by decide) (by decide))]
      simp [sizeMult]
    · rw [convertSizeToBytes_eval (ip ++ '.' :: fp) 'g' 'g' (decimalVal ip fp) hbody1 hhead1
        hlower1 (by decide) (by decide)
        (jsParseFloatList_dot ip fp 'g' hip hfp hne (by decide) (by decide) (by decide))]
      simp [sizeMult]
    · rw [convertSizeToBytes_eval (ip ++ '.' :: fp) 'G' 'g' (decimalVal ip fp) hbody1 hhead1
        hlower1 (by decide) (by decide)
        (jsParseFloatList_dot ip fp 'g' hip hfp hne (by decide) (by decide) (by decide))]
      simp [sizeMult]
  · rcases hc6 with rfl | rfl | rfl | rfl | rfl | rfl
    · rw [convertSizeToBytes_eval ip 'k' 'k' (digitsVal ip : ℚ) hbody2 hhead2
        hlower2 (by decide) (by decide)
        (jsParseFloatList_nodot ip 'k' hip hne (by decide) (by decide) (by decide) (by decide))]
      simp [sizeMult]
    · rw [convertSizeToBytes_eval ip 'K' 'k' (digitsVal ip : ℚ) hbody2 hhead2
        hlower2 (by decide) (by decide)
        (jsParseFloatList_nodot ip 'k' hip hne (by decide) (by decide) (by decide) (by decide))]
      simp [sizeMult]
    · rw [convertSizeToBytes_eval ip 'm' 'm' (digitsVal ip : ℚ) hbody2 hhead2
        hlower2 (by decide) (by decide)
        (jsParseFloatList_nodot ip 'm' hip hne (by decide) (by decide) (by decide) (by decide))]
      simp [sizeMult]
    · rw [convertSizeToBytes_eval ip 'M' 'm' (digitsVal ip : ℚ) hbody2 hhead2
        hlower2 (by decide) (by decide)
        (jsParseFloatList_nodot ip 'm' hip hne (by decide) (by decide) (by decide) (by decide))]
      simp [sizeMult]
    · rw [convertSizeToBytes_eval ip 'g' 'g' (digitsVal ip : ℚ) hbody2 hhead2
        hlower2 (by decide) (by decide)
        (jsParseFloatList_nodot ip 'g' hip hne (by decide) (by decide) (by decide) (by decide))]
      simp [sizeMult]
    · rw [convertSizeToBytes_eval ip 'G' 'g' (digitsVal ip : ℚ) hbody2 hhead2
        hlower2 (by decide) (by decide)
        (jsParseFloatList_nodot ip 'g' hip hne (by decide) (by decide) (by decide) (by decide))]
      simp [sizeMult]

/-- Witness for C8 at the concrete size strings `"1.5k"` and `"19M"`. -/
theorem C8_convertSizeToBytes_witness :
    convertSizeToBytes (String.mk (['1'] ++ '.' :: ['5'] ++ ['k'])) = .num (1536 : ℚ) ∧
      convertSizeToBytes (String.mk (['1', '9'] ++ ['M'])) = .num (19922944 : ℚ) := by
  constructor
  · rw [(C8_convertSizeToBytes ['1'] ['5'] 'k' (by decide) (by decide) (by decide)
      (by decide)).1]
    simp [decimalVal, digitsVal, sizeMult]
    norm_num [show ('1' : Char).toNat = 49 from by decide,
      show ('5' : Char).toNat = 53 from by decide]
  · rw [(C8_convertSizeToBytes ['1', '9'] [] 'M' (by decide) (by decide) (by decide)
      (by decide)).2.1]
    simp [digitsVal, sizeMult]
    norm_num

/-- Invariant of the mathjs `mode` loop: starting from a state whose running
maximum bounds and is attained among the counts of the processed prefix, and
whose running list is exactly the values attaining it, the final list is
exactly the set of values of maximal frequency in the whole input. -/
theorem modeAux_spec (rest : List ℚ) : ∀ (pre : List ℚ) (mx : ℕ) (mode : List ℚ),
    (∀ p, pre.count p ≤ mx) →
    (mx ≠ 0 → ∃ q0, pre.count q0 = mx) →
    (∀ q, q ∈ mode ↔ (pre.count q = mx ∧ mx ≠ 0)) →
    ∀ q, q ∈ modeAux rest pre mx mode ↔
      (q ∈ pre ++ rest ∧ ∀ p, (pre ++ rest).count p ≤ (pre ++ rest).count q) := by
  induction rest with
  | nil =>
      intro pre mx mode h1 h2 h3 q
      simp only [modeAux, List.append_nil]
      constructor
      · intro hq
        obtain ⟨hcnt, hmx⟩ := (h3 q).mp hq
        refine ⟨List.count_pos_iff.mp (by omega), fun p => by rw [hcnt]; exact h1 p⟩
      · rintro ⟨hmem, hmax⟩
        have hq1 : 0 < pre.count q := List.count_pos_iff.mpr hmem
        have hmx : mx ≠ 0 := by have := h1 q; omega
        obtain ⟨q0, hq0⟩ := h2 hmx
        refine (h3 q).mpr ⟨le_antisymm (h1 q) ?_, hmx⟩
        rw [← hq0]
        exact hmax q0
  | cons v rest ih =>
      intro pre mx mode h1 h2 h3 q
      have hassoc : (pre ++ [v]) ++ rest = pre ++ v :: rest := by simp
      simp only [modeAux]
      by_cases hc1 : pre.count v + 1 = mx
      · rw [if_pos hc1]
        have hres := ih (pre ++ [v]) mx (mode ++ [v])
          (by intro p
              rw [List.count_append, List.count_singleton]
              by_cases hvp : v = p
              · subst hvp
                rw [if_pos (by simp)]
                omega
              · rw [if_neg (by simpa using hvp)]
                have := h1 p
                omega)
          (by intro _
              exact ⟨v, by rw [List.count_append, List.count_singleton]; simp; omega⟩)
          (by intro q'
              rw [List.mem_append, List.mem_singleton, List.count_append,
                List.count_singleton]
              constructor
              · rintro (hq' | rfl)
                · obtain ⟨hcnt, hmx⟩ := (h3 q').mp hq'
                  have hne : ¬v = q' := by
                    intro hvq
                    subst hvq
                    omega
                  rw [if_neg (by simpa using hne)]
                  exact ⟨by omega, hmx⟩
                · rw [if_pos (by simp)]
                  exact ⟨by omega, by omega⟩
              · rintro ⟨hcnt, hmx⟩
                by_cases hvq : v = q'
                · exact Or.inr hvq.symm
                · rw [if_neg (by simpa using hvq)] at hcnt
                  exact Or.inl ((h3 q').mpr ⟨by omega, hmx⟩))
          q
        rw [hassoc] at hres
        exact hres
      · rw [if_neg hc1]
        by_cases hc2 : mx < pre.count v + 1
        · rw [if_pos hc2]
          have hres := ih (pre ++ [v]) (pre.count v + 1) [v]
            (by intro p
                rw [List.count_append, List.count_singleton]
                by_cases hvp : v = p
                · subst hvp
                  simp
                · rw [if_neg (by simpa using hvp)]
                  have := h1 p
                  omega)
            (by intro _
                exact ⟨v, by rw [List.count_append, List.count_singleton]; simp⟩)
            (by intro q'
                rw [List.mem_singleton, List.count_append, List.count_singleton]
                constructor
                · rintro rfl
                  rw [if_pos (by simp)]
                  exact ⟨rfl, by omega⟩
                · rintro ⟨hcnt, -⟩
                  by_cases hvq : v = q'
                  · exact hvq.symm
                  · rw [if_neg (by simpa using hvq)] at hcnt
                    have := h1 q'
                    omega)
            q
          rw [hassoc] at hres
          exact hres
        · rw [if_neg hc2]
          have hres := ih (pre ++ [v]) mx mode
            (by intro p
                rw [List.count_append, List.count_singleton]
                by_cases hvp : v = p
                · subst hvp
                  rw [if_pos (by simp)]
                  omega
                · rw [if_neg (by simpa using hvp)]
                  have := h1 p
                  omega)
            (by intro hmx
                obtain ⟨q0, hq0⟩ := h2 hmx
                refine ⟨q0, ?_⟩
                rw [List.count_append, List.count_singleton]
                have hne : ¬v = q0 := by
                  intro hvq
                  subst hvq
                  omega
                rw [if_neg (by simpa using hne)]
                omega)
            (by intro q'
                rw [List.count_append, List.count_singleton]
                by_cases hvq : v = q'
                · subst hvq
                  rw [if_pos (by simp)]
                  constructor
                  · intro hq'
                    obtain ⟨hcnt, hmx⟩ := (h3 v).mp hq'
                    omega
                  · rintro ⟨hcnt, hmx⟩
                    omega
                · rw [if_neg (by simpa using hvq)]
                  rw [h3 q']
                  omega)
            q
          rw [hassoc] at hres
          exact hres

/-- Expanding a centered sum of squares. -/
theorem sum_sq_sub_const (l : List ℚ) (m : ℚ) :
    (l.map (fun x => (x - m) ^ 2)).sum =
      (l.map (fun x => x ^ 2)).sum - 2 * m * l.sum + l.length * m ^ 2 := by
  induction l with
  | nil => simp
  | cons a l ih =>
      simp only [List.map_cons, List.sum_cons, List.length_cons, ih]
      push_cast
      ring

/-- With at least two clean values, mathjs `var` is the unbiased sample
variance in closed form `(n Σx² - (Σx)²) / (n (n - 1))`. -/
theorem mathjsVariance_formula (l : List ℚ) (h : 2 ≤ l.length) :
    mathjsVariance l =
      .num (((l.length : ℚ) * sumSq l - l.sum ^ 2) /
        ((l.length : ℚ) * ((l.length : ℚ) - 1))) := by
  have hn : (l.length : ℚ) ≠ 0 := Nat.cast_ne_zero.mpr (by omega)
  have hn2 : (2 : ℚ) ≤ (l.length : ℚ) := by exact_mod_cast h
  have hn1 : (l.length : ℚ) - 1 ≠ 0 := by
    intro hc
    have : (l.length : ℚ) = 1 := by linarith
    linarith
  simp only [mathjsVariance, if_neg (by omega : ¬l.length = 0),
    if_neg (by omega : ¬l.length = 1)]
  congr 1
  rw [sum_sq_sub_const l (l.sum / l.length)]
  rw [sumSq]
  field_simp
  ring

/-- Claim C4 (counterexample): on the clean input `[0, 2]` the code's
`variance` is the sample variance `2`, not the population variance `1`, and
on `[1, 1, 2, 2]` the code's `mode` is the two-element array `[1, 2]`, not a
single scalar. -/
theorem C4_counterexample :
    (calculateBasicStats [some 0, some 2]).variance = JSVal.num 2 ∧
      popVariance [0, 2] = 1 ∧
      JSVal.num 2 ≠ JSVal.num (popVariance [0, 2]) ∧
      (calculateBasicStats [some 1, some 1, some 2, some 2]).mode = some [1, 2] := by
  refine ⟨by decide, by decide, by decide, by decide⟩

/-- Claim C4 (amended): on a non-empty clean set, `calculateBasicStats`
returns `mode` as the array of all values attaining the maximum frequency
(mathjs `mode`), and — for at least two values — `variance` as the unbiased
sample variance `(n Σx² - (Σx)²) / (n (n - 1))` (divisor `n - 1`, not `n`)
with `std` its square root; a single clean value yields `0` for both via the
`num === 1` guard of the `'unbiased'` branch. -/
theorem C4_basicStats_sample (values : List (Option ℚ)) (h : cleanOf values ≠ []) :
    ((calculateBasicStats values).mode = some (mathjsMode (cleanOf values)) ∧
      ∀ q, q ∈ mathjsMode (cleanOf values) ↔
        (q ∈ cleanOf values ∧
          ∀ p, (cleanOf values).count p ≤ (cleanOf values).count q)) ∧
    (2 ≤ (cleanOf values).length →
      (calculateBasicStats values).variance =
        .num ((((cleanOf values).length : ℚ) * sumSq (cleanOf values) -
            (cleanOf values).sum ^ 2) /
          (((cleanOf values).length : ℚ) * (((cleanOf values).length : ℚ) - 1))) ∧
      (calculateBasicStats values).std =
        some (Real.sqrt (((((cleanOf values).length : ℚ) * sumSq (cleanOf values) -
            (cleanOf values).sum ^ 2) /
          (((cleanOf values).length : ℚ) * (((cleanOf values).length : ℚ) - 1)) : ℚ) : ℝ))) ∧
    ((cleanOf values).length = 1 →
      (calculateBasicStats values).variance = JSVal.num 0 ∧
      (calculateBasicStats values).std = some 0) := by
  have hmode : (calculateBasicStats values).mode = some (mathjsMode (cleanOf values)) := by
    simp [calculateBasicStats, h]
  have hvar : (calculateBasicStats values).variance = mathjsVariance (cleanOf values) := by
    simp [calculateBasicStats, h]
  have hstd : (calculateBasicStats values).std = mathjsStd (cleanOf values) := by
    simp [calculateBasicStats, h]
  refine ⟨⟨hmode, ?_⟩, ?_, ?_⟩
  · have hspec := modeAux_spec (cleanOf values) [] 0 []
      (by intro p; simp) (by intro hc; exact absurd rfl hc) (by intro q; simp)
    intro q
    have := hspec q
    simpa [mathjsMode] using this
  · intro h2
    have hv := mathjsVariance_formula (cleanOf values) h2
    refine ⟨hvar.trans hv, ?_⟩
    rw [hstd, mathjsStd, hv]
  · intro h1
    have hv : mathjsVariance (cleanOf values) = JSVal.num 0 := by
      simp [mathjsVariance, h1]
    refine ⟨hvar.trans hv, ?_⟩
    rw [hstd, mathjsStd, hv]
    simp

/-- Witness for C4 at the concrete inputs `[0, 2]`, `[1, 1, 2, 2]` and the
single-element `[5]`. -/
theorem C4_basicStats_sample_witness :
    (cleanOf [some 0, some 2] ≠ [] ∧
      (calculateBasicStats [some 0, some 2]).variance = JSVal.num 2) ∧
    (calculateBasicStats [some 1, some 1, some 2, some 2]).mode =
      some (mathjsMode (cleanOf [some 1, some 1, some 2, some 2])) ∧
    (calculateBasicStats [some 5]).variance = JSVal.num 0 := by
  refine ⟨?_, ?_, ?_⟩
  · refine ⟨by decide, ?_⟩
    have h := (C4_basicStats_sample [some 0, some 2] (by decide)).2.1 (by decide)
    exact h.1.trans (by decide)
  · exact (C4_basicStats_sample [some 1, some 1, some 2, some 2] (by decide)).1.1
  · exact ((C4_basicStats_sample [some 5] (by decide)).2.2 (by decide)).1

/-- Expanding a centered sum of products over pairs. -/
theorem sum_mul_sub_const (p : List (ℚ × ℚ)) (a b : ℚ) :
    (p.map (fun q => (q.1 - a) * (q.2 - b))).sum =
      (p.map (fun q => q.1 * q.2)).sum - a * (p.map Prod.snd).sum
        - b * (p.map Prod.fst).sum + p.length * (a * b) := by
  induction p with
  | nil => simp
  | cons q p ih =>
      simp only [List.map_cons, List.sum_cons, List.length_cons, ih]
      push_cast
      ring

/-- A sum of mapped squares vanishes exactly when every mapped value does. -/
theorem sum_sq_eq_zero_iff (l : List ℚ) (f : ℚ → ℚ) :
    (l.map (fun x => f x ^ 2)).sum = 0 ↔ ∀ x ∈ l, f x = 0 := by
  induction l with
  | nil => simp
  | cons a l ih =>
      simp only [List.map_cons, List.sum_cons]
      have h1 : 0 ≤ f a ^ 2 := sq_nonneg _
      have h2 : 0 ≤ (l.map (fun x => f x ^ 2)).sum :=
        List.sum_nonneg (by
          intro y hy
          obtain ⟨x, -, rfl⟩ := List.mem_map.mp hy
          exact sq_nonneg _)
      constructor
      · intro h
        have ha : f a ^ 2 = 0 := by linarith
        have hrest : (l.map (fun x => f x ^ 2)).sum = 0 := by linarith
        intro x hx
        rcases List.mem_cons.mp hx with h' | h'
        · rw [h']
          exact pow_eq_zero_iff (by omega) |>.mp ha
        · exact (ih.mp hrest) x h'
      · intro h
        rw [(ih.mpr (fun x hx => h x (by simp [hx]))), h a (by simp)]
        norm_num

/-- A centered sum of squares is nonnegative. -/
theorem centeredSS_nonneg (l : List ℚ) : 0 ≤ centeredSS l :=
  List.sum_nonneg (by
    intro y hy
    obtain ⟨x, -, rfl⟩ := List.mem_map.mp hy
    exact sq_nonneg _)

/-- The sum of a constant list. -/
theorem sum_const_of_all (l : List ℚ) (c : ℚ) (h : ∀ x ∈ l, x = c) :
    l.sum = l.length * c := by
  induction l with
  | nil => simp
  | cons a l ih =>
      simp only [List.sum_cons, List.length_cons]
      rw [h a (by simp), ih (fun x hx => h x (by simp [hx]))]
      push_cast
      ring

/-- A vanishing centered sum of squares means every value equals the mean. -/
theorem centeredSS_zero_mean (l : List ℚ) (h : centeredSS l = 0) :
    ∀ x ∈ l, x = meanQ l := by
  intro x hx
  have := (sum_sq_eq_zero_iff l (fun t => t - meanQ l)).mp h x hx
  linarith

/-- A constant list has a vanishing centered sum of squares. -/
theorem allEqual_centeredSS (l : List ℚ) (hne : l ≠ []) (h : allEqual l) :
    centeredSS l = 0 := by
  obtain ⟨a, l', rfl⟩ : ∃ a l', l = a :: l' := by
    cases l with
    | nil => exact absurd rfl hne
    | cons a l' => exact ⟨a, l', rfl⟩
  have hall : ∀ x ∈ a :: l', x = a := fun x hx => h x hx a (by simp)
  have hmean : meanQ (a :: l') = a := by
    rw [meanQ, sum_const_of_all _ a hall]
    have hn : ((a :: l').length : ℚ) ≠ 0 := Nat.cast_ne_zero.mpr (by simp)
    field_simp
  refine (sum_sq_eq_zero_iff _ (fun t => t - meanQ (a :: l'))).mpr ?_
  intro x hx
  rw [hall x hx, hmean]
  ring

/-- A nonzero centered sum of squares follows from non-constancy. -/
theorem centeredSS_pos (l : List ℚ) (_hne : l ≠ []) (h : ¬allEqual l) :
    0 < centeredSS l := by
  rcases lt_or_eq_of_le (centeredSS_nonneg l) with h' | h'
  · exact h'
  · exfalso
    refine h ?_
    intro a ha b hb
    rw [centeredSS_zero_mean l h'.symm a ha, centeredSS_zero_mean l h'.symm b hb]

/-- `n·centeredSS` in closed form. -/
theorem nSS_eq (l : List ℚ) (hne : l ≠ []) :
    (l.length : ℚ) * centeredSS l = (l.length : ℚ) * sumSq l - l.sum ^ 2 := by
  have hn : (l.length : ℚ) ≠ 0 := Nat.cast_ne_zero.mpr (by simp [hne])
  rw [centeredSS, sum_sq_sub_const l (meanQ l), meanQ, sumSq]
  field_simp
  ring

/-- `n·centeredSP` in closed form. -/
theorem nSP_eq (p : List (ℚ × ℚ)) (hne : p ≠ []) :
    (p.length : ℚ) * centeredSP p =
      (p.length : ℚ) * (p.map (fun q => q.1 * q.2)).sum -
        (p.map Prod.fst).sum * (p.map Prod.snd).sum := by
  have hn : ((p.map Prod.fst).length : ℚ) ≠ 0 := Nat.cast_ne_zero.mpr (by simp [hne])
  rw [centeredSP, sum_mul_sub_const p (meanQ (p.map Prod.fst)) (meanQ (p.map Prod.snd)),
    meanQ, meanQ]
  simp only [List.length_map] at hn ⊢
  field_simp
  ring

/-- The mathjs numerator over a pair list. -/
theorem corrNum_pairs (p : List (ℚ × ℚ)) :
    corrNum (p.map Prod.fst) (p.map Prod.snd) =
      (p.length : ℚ) * (p.map (fun q => q.1 * q.2)).sum -
        (p.map Prod.fst).sum * (p.map Prod.snd).sum := by
  rw [corrNum]
  simp [List.zip_map', List.map_map, Function.comp]

/-- The mathjs radicand over a pair list, factored through the centered sums. -/
theorem corrDen2_pairs (p : List (ℚ × ℚ)) (hne : p ≠ []) :
    corrDen2 (p.map Prod.fst) (p.map Prod.snd) =
      ((p.length : ℚ) * centeredSS (p.map Prod.fst)) *
        ((p.length : ℚ) * centeredSS (p.map Prod.snd)) := by
  have h1 := nSS_eq (p.map Prod.fst) (by simp [hne])
  have h2 := nSS_eq (p.map Prod.snd) (by simp [hne])
  rw [sumSq] at h1 h2
  rw [corrDen2]
  simp only [List.length_map] at h1 h2 ⊢
  rw [← h1, ← h2]

/-- Square-root algebra for the denominator. -/
theorem sqrt_prod_eq (n a b : ℝ) (hn : 0 ≤ n) (ha : 0 ≤ a) :
    Real.sqrt ((n * a) * (n * b)) = n * (Real.sqrt a * Real.sqrt b) := by
  rw [show (n * a) * (n * b) = (n * n) * (a * b) from by ring,
    Real.sqrt_mul (by positivity), Real.sqrt_mul_self hn, Real.sqrt_mul ha]

/-- Behaviour of the mathjs `corr` core on at least two pairs: `NaN` exactly
on a constant series (where the numerator provably vanishes as well, so the
`Infinity` branches are unreachable), the textbook Pearson value otherwise. -/
theorem mathjsCorr_eval (p : List (ℚ × ℚ)) (h2 : 2 ≤ p.length) :
    ((allEqual (p.map Prod.fst) ∨ allEqual (p.map Prod.snd)) →
      mathjsCorr (p.map Prod.fst) (p.map Prod.snd) = JSRVal.nan) ∧
    (¬allEqual (p.map Prod.fst) → ¬allEqual (p.map Prod.snd) →
      mathjsCorr (p.map Prod.fst) (p.map Prod.snd) = JSRVal.num (pearson p)) := by
  have hne : p ≠ [] := by
    intro h
    rw [h] at h2
    simp at h2
  have hnpos : 0 < p.length := List.length_pos.mpr hne
  have hd2 := corrDen2_pairs p hne
  have hnum := corrNum_pairs p
  have hsp := nSP_eq p hne
  constructor
  · intro hx
    have hsp0 : centeredSP p = 0 := by
      rw [centeredSP]
      refine List.sum_eq_zero ?_
      intro t ht
      obtain ⟨q, hq, rfl⟩ := List.mem_map.mp ht
      rcases hx with hx | hx
      · have hss : centeredSS (p.map Prod.fst) = 0 :=
          allEqual_centeredSS _ (by simp [hne]) hx
        have hm : q.1 = meanQ (p.map Prod.fst) :=
          centeredSS_zero_mean _ hss q.1 (List.mem_map.mpr ⟨q, hq, rfl⟩)
        rw [hm]
        ring
      · have hss : centeredSS (p.map Prod.snd) = 0 :=
          allEqual_centeredSS _ (by simp [hne]) hx
        have hm : q.2 = meanQ (p.map Prod.snd) :=
          centeredSS_zero_mean _ hss q.2 (List.mem_map.mpr ⟨q, hq, rfl⟩)
        rw [hm]
        ring
    have hnum0 : corrNum (p.map Prod.fst) (p.map Prod.snd) = 0 := by
      rw [hnum, ← hsp, hsp0, mul_zero]
    have hden0 : corrDen2 (p.map Prod.fst) (p.map Prod.snd) = 0 := by
      rcases hx with hx | hx
      · rw [hd2, allEqual_centeredSS _ (by simp [hne]) hx]
        ring
      · rw [hd2, allEqual_centeredSS _ (by simp [hne]) hx]
        ring
    simp only [mathjsCorr, hnum0, hden0]
    norm_num
  · intro hx hy
    have hssx : 0 < centeredSS (p.map Prod.fst) := centeredSS_pos _ (by simp [hne]) hx
    have hssy : 0 < centeredSS (p.map Prod.snd) := centeredSS_pos _ (by simp [hne]) hy
    have hd2pos : 0 < corrDen2 (p.map Prod.fst) (p.map Prod.snd) := by
      rw [hd2]
      have : (0:ℚ) < (p.length : ℚ) := by exact_mod_cast hnpos
      positivity
    have hdenpos : 0 < Real.sqrt ((corrDen2 (p.map Prod.fst) (p.map Prod.snd) : ℚ) : ℝ) :=
      Real.sqrt_pos.mpr (by exact_mod_cast hd2pos)
    have hnumeq : corrNum (p.map Prod.fst) (p.map Prod.snd) = (p.length : ℚ) * centeredSP p := by
      rw [hnum, ← hsp]
    simp only [mathjsCorr]
    rw [if_neg (ne_of_gt hdenpos)]
    congr 1
    rw [hnumeq, hd2, pearson]
    push_cast
    rw [sqrt_prod_eq ((p.length : ℕ) : ℝ) _ _ (by positivity) (by exact_mod_cast le_of_lt hssx)]
    have hnR : ((p.length : ℕ) : ℝ) ≠ 0 := Nat.cast_ne_zero.mpr (Nat.pos_iff_ne_zero.mp hnpos)
    rw [mul_div_mul_left _ _ hnR]

/-- The valid-pair list is never longer than the first input. -/
theorem validPairs_length_le (x y : List (Option ℚ)) :
    (validPairs x y).length ≤ x.length :=
  le_trans (List.length_filterMap_le _ _) (by rw [List.length_zip]; exact min_le_left _ _)

/-- C3: `calculateCorrelation` returns `0` on a length mismatch, returns `0`
when fewer than two valid pairs remain, returns `0` (through the
`isNaN → 0` guard) when either remaining series is constant, returns the
textbook Pearson coefficient of the remaining pairs otherwise, and always
returns a finite number (never `NaN`, never `±Infinity`, never a thrown
error — the embedding is total). -/
theorem C3_calculateCorrelation (x y : List (Option ℚ)) :
    (x.length ≠ y.length → calculateCorrelation x y = JSRVal.num 0) ∧
    ((validPairs x y).length < 2 → calculateCorrelation x y = JSRVal.num 0) ∧
    (2 ≤ (validPairs x y).length →
      (allEqual ((validPairs x y).map Prod.fst) ∨ allEqual ((validPairs x y).map Prod.snd)) →
      calculateCorrelation x y = JSRVal.num 0) ∧
    (x.length = y.length → 2 ≤ (validPairs x y).length →
      ¬allEqual ((validPairs x y).map Prod.fst) → ¬allEqual ((validPairs x y).map Prod.snd) →
      calculateCorrelation x y = JSRVal.num (pearson (validPairs x y))) ∧
    (∃ r : ℝ, calculateCorrelation x y = JSRVal.num r) := by
  refine ⟨?_, ?_, ?_, ?_, ?_⟩
  · intro hlen
    simp only [calculateCorrelation]
    rw [if_pos (Or.inl hlen)]
  · intro hlt
    simp only [calculateCorrelation]
    by_cases hl : x.length ≠ y.length ∨ x.length = 0
    · rw [if_pos hl]
    · rw [if_neg hl, if_pos hlt]
  · intro h2 hconst
    simp only [calculateCorrelation]
    by_cases hl : x.length ≠ y.length ∨ x.length = 0
    · rw [if_pos hl]
    · rw [if_neg hl, if_neg (by omega)]
      rw [(mathjsCorr_eval (validPairs x y) h2).1 hconst]
  · intro hlen h2 hx hy
    have hx0 : x.length ≠ 0 := by
      have := validPairs_length_le x y
      omega
    simp only [calculateCorrelation]
    rw [if_neg (by push_neg; exact ⟨hlen, hx0⟩), if_neg (by omega)]
    rw [(mathjsCorr_eval (validPairs x y) h2).2 hx hy]
  · simp only [calculateCorrelation]
    by_cases hl : x.length ≠ y.length ∨ x.length = 0
    · exact ⟨0, by rw [if_pos hl]⟩
    · rw [if_neg hl]
      by_cases hlt : (validPairs x y).length < 2
      · exact ⟨0, by rw [if_pos hlt]⟩
      · rw [if_neg hlt]
        by_cases hax : allEqual ((validPairs x y).map Prod.fst)
        · exact ⟨0, by rw [(mathjsCorr_eval (validPairs x y) (by omega)).1 (Or.inl hax)]⟩
        · by_cases hay : allEqual ((validPairs x y).map Prod.snd)
          · exact ⟨0, by rw [(mathjsCorr_eval (validPairs x y) (by omega)).1 (Or.inr hay)]⟩
          · exact ⟨pearson (validPairs x y),
              by rw [(mathjsCorr_eval (validPairs x y) (by omega)).2 hax hay]⟩

/-- Witness: on x = y = [1, 2] the correlation is the Pearson value, which
evaluates to 1. -/
theorem C3_calculateCorrelation_witness :
    calculateCorrelation [some 1, some 2] [some 1, some 2] = JSRVal.num 1 := by
  have hvp : validPairs [some 1, some 2] [some 1, some 2] = [((1:ℚ), (1:ℚ)), (2, 2)] := by
    decide
  have hx : ¬allEqual ((validPairs [some 1, some 2] [some 1, some 2]).map Prod.fst) := by
    rw [hvp]
    intro h
    have h12 := h 1 (by simp) 2 (by simp)
    norm_num at h12
  have hy : ¬allEqual ((validPairs [some 1, some 2] [some 1, some 2]).map Prod.snd) := by
    rw [hvp]
    intro h
    have h12 := h 1 (by simp) 2 (by simp)
    norm_num at h12
  have h := (C3_calculateCorrelation [some 1, some 2] [some 1, some 2]).2.2.2.1
    rfl (by rw [hvp]; decide) hx hy
  rw [h, hvp]
  congr 1
  rw [pearson]
  have h1 : centeredSP [((1:ℚ), (1:ℚ)), (2, 2)] = 1/2 := by decide
  have h2 : centeredSS ([((1:ℚ), (1:ℚ)), (2, 2)].map Prod.fst) = 1/2 := by decide
  have h3 : centeredSS ([((1:ℚ), (1:ℚ)), (2, 2)].map Prod.snd) = 1/2 := by decide
  rw [h1, h2, h3, Real.mul_self_sqrt (by norm_num : (0:ℝ) ≤ ((1/2 : ℚ) : ℝ))]
  norm_num
